import Mathlib

/-!
Verification development for the climatiq heat-pump stability controller.

Shallow embedding of the core decision and analysis functions of the
repository (src/appdaemon/apps/climatiq_controller.py,
src/climatiq/core/controller.py, src/climatiq/core/observer.py,
src/climatiq/core/analyzer.py, src/climatiq/analysis/cycling_detector.py)
into Lean 4.  Machine floats are modelled by exact rationals (and by reals
where the source takes square roots); timestamps are modelled in minutes.
-/

set_option autoImplicit false

namespace Climatiq

/-! ## Configuration values

A configuration entry read from the controller's YAML args is an arbitrary
Python object; the control cycle checks it with
`isinstance(emergency_threshold, (int, float))`.  We model the values that
can appear: a number, a string, or Python `None`. -/

inductive CVal where
  | num (q : ℚ)
  | str (s : String)
  | noneV
  deriving DecidableEq

def CVal.isNumeric : CVal → Bool
  | .num _ => true
  | _ => false

def CVal.toQ : CVal → ℚ
  | .num q => q
  | _ => 0

/-- Embeds the emergency-threshold validation of
`ClimatIQController.control_cycle` (climatiq_controller.py lines 764-775):
`rules.get("stability", {}).get("emergency_delta_threshold", 6.0)` followed by
`if not isinstance(t, (int, float)) or t <= 0: warn; t = 6.0`.
Returns the effective threshold together with the warned flag. -/
def validateEmergencyThreshold (configured : Option CVal) : ℚ × Bool :=
  let raw := configured.getD (CVal.num 6)
  match raw with
  | .num q => if q ≤ 0 then (6, true) else (q, false)
  | _ => (6, true)

/-! ## Comfort-emergency predicate (modelled from the spec) -/

/-- Modelled from the spec: the per-room comfort-emergency predicate
`ClimatIQController._check_comfort_emergency` is exercised by the repository
tests (src/tests/unit/test_controller_emergency_override.py) but the method
itself is absent from the shipped controller source.  The spec describes it
as: comfort emergency holds iff any single room's temperature deviation from
its target exceeds a configured tolerance, asymmetric for too-cold
(delta below minus `tolCold`) versus too-warm (delta above `tolWarm`).
`rooms` carries (name, delta) pairs. -/
def checkComfortEmergency (tolCold tolWarm : ℚ) (rooms : List (String × ℚ)) : Bool :=
  rooms.any (fun r => r.2 < -tolCold || r.2 > tolWarm)

/-! ## Gradual-nudge strategy (src/climatiq/core/controller.py) -/

structure UnitC where
  isOn : Bool
  targetTemp : Option ℚ
  deriving DecidableEq

inductive NudgeResult where
  | noAction
  | adjustTemp (unitName : String) (temperature previous : ℚ)
  deriving DecidableEq

/-- `Controller.MAX_TEMP_DEVIATION` (controller.py line 61). -/
def MAX_TEMP_DEVIATION : ℚ := 3/2

/-- Embeds `Controller._strategy_gradual_nudge` (controller.py lines
195-222).  `comfortTarget` is `config["comfort"]["target_temp"]`
(default 21.0).  The active-unit filter keeps units that are on and have a
target temperature; the first such unit is nudged.  The reason strings of
the returned action are elided. -/
def strategyGradualNudge (comfortTarget : ℚ) (units : List (String × UnitC)) :
    NudgeResult :=
  let active := units.filter (fun u => u.2.isOn && u.2.targetTemp.isSome)
  match active with
  | [] => .noAction
  | (name, u) :: _ =>
    let currentTemp := u.targetTemp.getD 0
    let newTemp := currentTemp + 3/10
    let maxTemp := comfortTarget + MAX_TEMP_DEVIATION
    if newTemp > maxTemp then
      let down := currentTemp - 3/10
      if down < comfortTarget - MAX_TEMP_DEVIATION then .noAction
      else .adjustTemp name down currentTemp
    else .adjustTemp name newTemp currentTemp

/-! ## Theorems for claim C9 -/

/-- C9: a configured emergency delta threshold that is non-numeric or ≤ 0 is
replaced by the hard-coded default 6.0 with a warning, and the invalid
configured value is never used as the effective threshold. -/
theorem c9_invalid_threshold_replaced (v : CVal)
    (h : v.isNumeric = false ∨ v.toQ ≤ 0) :
    validateEmergencyThreshold (some v) = (6, true) ∧
    ∀ q : ℚ, v = CVal.num q → (validateEmergencyThreshold (some v)).1 ≠ q := by
  cases v with
  | num q =>
    have hq : q ≤ 0 := by
      rcases h with h | h
      · simp [CVal.isNumeric] at h
      · simpa [CVal.toQ] using h
    have hv : validateEmergencyThreshold (some (CVal.num q)) = (6, true) := by
      simp [validateEmergencyThreshold, hq]
    refine ⟨hv, ?_⟩
    intro q' hq'
    cases hq'
    rw [hv]
    intro hcontra
    have h6 : (6 : ℚ) = q := hcontra
    linarith
  | str s =>
    refine ⟨by simp [validateEmergencyThreshold], ?_⟩
    intro q hq'
    cases hq'
  | noneV =>
    refine ⟨by simp [validateEmergencyThreshold], ?_⟩
    intro q hq'
    cases hq'

/-- Witness for C9 at the concrete invalid threshold −1 (and at a string). -/
theorem c9_invalid_threshold_replaced_witness :
    validateEmergencyThreshold (some (CVal.num (-1))) = (6, true) ∧
    (validateEmergencyThreshold (some (CVal.num (-1)))).1 ≠ (-1 : ℚ) := by
  have h := c9_invalid_threshold_replaced (CVal.num (-1)) (Or.inr (by norm_num [CVal.toQ]))
  exact ⟨h.1, h.2 (-1) rfl⟩

/-! ## Theorems for claim C3 -/

/-- C3 (spec-modelled): the comfort-emergency predicate is an asymmetric
per-room tolerance check.  With tolerance_cold = 1.5 K and
tolerance_warm = 1.0 K: a state with some room at delta −2.0 K is a comfort
emergency; a state with some room at delta +1.5 K is a comfort emergency;
a state whose every room delta lies within [−1.5, 1.0] is not. -/
theorem c3_comfort_emergency_scenarios (rooms : List (String × ℚ)) :
    ((∃ r ∈ rooms, r.2 = -2) → checkComfortEmergency (3/2) 1 rooms = true) ∧
    ((∃ r ∈ rooms, r.2 = 3/2) → checkComfortEmergency (3/2) 1 rooms = true) ∧
    ((∀ r ∈ rooms, -(3/2) ≤ r.2 ∧ r.2 ≤ 1) →
      checkComfortEmergency (3/2) 1 rooms = false) := by
  refine ⟨?_, ?_, ?_⟩
  · rintro ⟨r, hr, hd⟩
    simp only [checkComfortEmergency, List.any_eq_true]
    exact ⟨r, hr, by rw [hd]; norm_num⟩
  · rintro ⟨r, hr, hd⟩
    simp only [checkComfortEmergency, List.any_eq_true]
    exact ⟨r, hr, by rw [hd]; norm_num⟩
  · intro hall
    simp only [checkComfortEmergency, List.any_eq_false]
    intro r hr
    have := hall r hr
    simp only [Bool.or_eq_true, decide_eq_true_eq, not_or]
    constructor
    · intro hcontra
      linarith [this.1]
    · intro hcontra
      linarith [this.2]

/-- Witness for C3 at concrete room states. -/
theorem c3_comfort_emergency_scenarios_witness :
    checkComfortEmergency (3/2) 1 [("living", -2)] = true ∧
    checkComfortEmergency (3/2) 1 [("living", 3/2)] = true ∧
    checkComfortEmergency (3/2) 1 [("living", 1/2), ("bedroom", -(4/5))] = false := by
  refine ⟨?_, ?_, ?_⟩
  · exact (c3_comfort_emergency_scenarios _).1 ⟨("living", -2), by simp, rfl⟩
  · exact (c3_comfort_emergency_scenarios _).2.1 ⟨("living", 3/2), by simp, rfl⟩
  · exact (c3_comfort_emergency_scenarios _).2.2 (by
      intro r hr
      fin_cases hr <;> norm_num)

/-! ## Theorems for claim C7 -/

/-- C7 counterexample: with comfort target 21 °C and an active unit whose
current setpoint is 24 °C, the gradual nudge returns setpoint 23.7 °C, which
deviates 2.7 °C from the comfort target — more than the maximum allowed
deviation of 1.5 °C.  This refutes the claim that the resulting setpoint
never deviates from the comfort setpoint by more than 1.5 °C. -/
theorem c7_nudge_deviation_counterexample :
    strategyGradualNudge 21 [("wohnzimmer", ⟨true, some 24⟩)] =
      NudgeResult.adjustTemp "wohnzimmer" (237/10) 24 ∧
    ¬ |(237 : ℚ)/10 - 21| ≤ MAX_TEMP_DEVIATION := by
  constructor
  · norm_num [strategyGradualNudge, List.filter, MAX_TEMP_DEVIATION, Option.getD]
  · rw [MAX_TEMP_DEVIATION, abs_of_nonneg (by norm_num)]
    norm_num

/-- C7 amended: the gradual nudge changes the first active unit's setpoint
by exactly 0.3 °C (hence by at most 0.5 °C); if nudging up would exceed
comfort target + 1.5 °C it nudges down instead, otherwise it nudges up; and
whenever the unit's current setpoint itself deviates at most 1.5 °C from the
comfort target, the resulting setpoint also deviates at most 1.5 °C.  (It is
not clamped when the current setpoint is already out of band, as the
counterexample shows.) -/
theorem c7_nudge_amended (comfortTarget : ℚ) (units : List (String × UnitC))
    (name : String) (t prev : ℚ)
    (hres : strategyGradualNudge comfortTarget units =
      NudgeResult.adjustTemp name t prev) :
    |t - prev| = 3/10 ∧
    (prev + 3/10 > comfortTarget + 3/2 → t = prev - 3/10) ∧
    (¬ prev + 3/10 > comfortTarget + 3/2 → t = prev + 3/10) ∧
    (|prev - comfortTarget| ≤ 3/2 → |t - comfortTarget| ≤ 3/2) := by
  unfold strategyGradualNudge at hres
  rcases hact : units.filter (fun u => u.2.isOn && u.2.targetTemp.isSome) with
    _ | ⟨⟨n, u⟩, rest⟩
  · rw [hact] at hres
    cases hres
  · rw [hact] at hres
    simp only [MAX_TEMP_DEVIATION] at hres
    by_cases h1 : u.targetTemp.getD 0 + 3/10 > comfortTarget + 3/2
    · rw [if_pos h1] at hres
      by_cases h2 : u.targetTemp.getD 0 - 3/10 < comfortTarget - 3/2
      · rw [if_pos h2] at hres
        cases hres
      · rw [if_neg h2] at hres
        cases hres
        refine ⟨?_, fun _ => rfl, fun hc => absurd h1 hc, ?_⟩
        · rw [sub_sub_cancel_left, abs_neg, abs_of_nonneg] ; norm_num
        · intro hdev
          rw [abs_le] at hdev ⊢
          push_neg at h2
          constructor
          · linarith [hdev.1, hdev.2]
          · linarith [hdev.1, hdev.2]
    · rw [if_neg h1] at hres
      cases hres
      refine ⟨?_, fun hc => absurd hc h1, fun _ => rfl, ?_⟩
      · rw [add_sub_cancel_left, abs_of_nonneg] ; norm_num
      · intro hdev
        rw [abs_le] at hdev ⊢
        push_neg at h1
        constructor
        · linarith [hdev.1, hdev.2]
        · linarith [hdev.1, hdev.2]

/-- Witness for C7 amended at a concrete in-band unit. -/
theorem c7_nudge_amended_witness :
    |(213 : ℚ)/10 - 21| = 3/10 ∧
    (|(21 : ℚ) - 21| ≤ 3/2 → |(213 : ℚ)/10 - 21| ≤ 3/2) := by
  have h := c7_nudge_amended 21 [("a", ⟨true, some 21⟩)] "a" (213/10) 21 (by
    norm_num [strategyGradualNudge, List.filter, MAX_TEMP_DEVIATION, Option.getD])
  exact ⟨h.1, h.2.2.2⟩

/-! ## Per-room decision logic (src/appdaemon/apps/climatiq_controller.py)

`decide_actions` (lines 869-1004) iterates over the rooms of the current
state and emits turn_off / turn_on / adjust_target actions, subject to a
per-room cooldown (shorter under emergency), then trims to
`max_actions_per_cycle` by descending absolute delta.  Timestamps are
minutes (an `Int`); `last_action_time` is a map from room name to the time
of the last executed action (`none` models a room absent from the dict,
whose `datetime.min` default always passes the cooldown check).  Reason
strings are elided. -/

inductive ActType where
  | turnOff
  | turnOn
  | adjustTarget
  deriving DecidableEq

structure RoomAction where
  room : String
  type : ActType
  oldTarget : Option ℚ
  newTarget : Option ℚ
  deriving DecidableEq

/-- Per-room state as assembled by `get_current_state` (lines 838-855),
plus the room's outdoor-unit operating mode as resolved by
`get_outdoor_unit_for_room` (the config is folded into the room record). -/
structure RoomState where
  delta : ℚ
  targetTemp : ℚ
  isOn : Bool
  unitMode : String
  deriving DecidableEq

/-- The rule entries read by `decide_actions` and `control_cycle`.  The
Python defaults (`.get("emergency_action_interval_minutes", 7)` and the
missing-key behaviour of `emergency_delta_threshold`) are resolved by the
caller of this record. -/
structure Rules where
  tolCold : ℚ
  tolWarm : ℚ
  targetStep : ℚ
  targetMax : ℚ
  targetMin : ℚ
  minActionInterval : ℤ
  emergencyActionInterval : ℤ
  maxActionsPerCycle : ℕ
  emergencyDeltaThreshold : Option CVal
  deriving DecidableEq

structure CtrlState where
  power : ℚ
  rooms : List (String × RoomState)
  deriving DecidableEq

/-- `state["total_delta_abs"]` (line 862). -/
def totalDeltaAbs (st : CtrlState) : ℚ :=
  (st.rooms.map (fun r => |r.2.delta|)).sum

/-- Cooldown test of lines 886-905: `datetime.now() - last < cooldown`. -/
def cooldownActive (last : Option ℤ) (now cooldown : ℤ) : Bool :=
  match last with
  | none => false
  | some t => decide (now - t < cooldown)

/-- The actions contributed by a single room (decision branches 1-5 of
`decide_actions`, lines 916-989), ignoring the cooldown gate.  Branches 1
and 2 `continue` after appending; branch 3/4 are an if/elif pair and
branch 5 is an independent `if`, so one room can contribute two actions. -/
def roomActions (rules : Rules) (isNight : Bool) (power : ℚ)
    (name : String) (room : RoomState) : List RoomAction :=
  if isNight && room.isOn && decide (room.delta ≥ -(1/2)) then
    [⟨name, .turnOff, none, none⟩]
  else if room.unitMode = "heat" && decide (room.delta > 2) && room.isOn then
    [⟨name, .turnOff, none, none⟩]
  else
    let a34 : List RoomAction :=
      if room.delta < -rules.tolCold then
        if room.isOn = false then [⟨name, .turnOn, none, none⟩]
        else
          let newTarget := min (room.targetTemp + rules.targetStep) rules.targetMax
          if newTarget ≠ room.targetTemp then
            [⟨name, .adjustTarget, some room.targetTemp, some newTarget⟩]
          else []
      else if room.delta > rules.tolWarm then
        if room.isOn then
          let newTarget := max (room.targetTemp - rules.targetStep) rules.targetMin
          if newTarget ≠ room.targetTemp then
            [⟨name, .adjustTarget, some room.targetTemp, some newTarget⟩]
          else []
        else []
      else []
    let a5 : List RoomAction :=
      if power < 500 && room.isOn = false && decide (room.delta < -(1/2)) then
        [⟨name, .turnOn, none, none⟩]
      else []
    a34 ++ a5

/-- Stable insertion into a list sorted by descending key, mirroring
Python's stable `sorted(..., reverse=True)`. -/
def insertByKeyDesc (key : RoomAction → ℚ) (a : RoomAction) :
    List RoomAction → List RoomAction
  | [] => [a]
  | b :: bs => if key a < key b then b :: insertByKeyDesc key a bs else a :: b :: bs

/-- Stable sort by descending key. -/
def sortByKeyDesc (key : RoomAction → ℚ) : List RoomAction → List RoomAction
  | [] => []
  | a :: as' => insertByKeyDesc key a (sortByKeyDesc key as')

/-- Sort key of the overflow trim (lines 995-1001): the absolute delta of
the action's room in the state, 0 if the room is unknown. -/
def trimKey (st : CtrlState) (a : RoomAction) : ℚ :=
  match st.rooms.find? (fun r => r.1 = a.room) with
  | some r => |r.2.delta|
  | none => 0

/-- The per-room cooldown interval selection of lines 890-893: emergency
cycles use `emergency_action_interval_minutes`, normal cycles
`min_action_interval_minutes`. -/
def effectiveCooldown (rules : Rules) (isEmergency : Bool) : ℤ :=
  if isEmergency then rules.emergencyActionInterval else rules.minActionInterval

/-- Embeds `ClimatIQController.decide_actions` (lines 869-1004).
`last` is `self.last_action_time`; `now` is the tick time in minutes;
`hour` is `datetime.now().hour`. -/
def decideActions (rules : Rules) (now : ℤ) (hour : ℕ)
    (last : String → Option ℤ) (st : CtrlState) (isEmergency : Bool) :
    List RoomAction :=
  let isNight : Bool := decide (23 ≤ hour) || decide (hour < 6)
  let actions := st.rooms.foldl
    (fun acc nr =>
      if cooldownActive (last nr.1) now (effectiveCooldown rules isEmergency) then acc
      else acc ++ roomActions rules isNight st.power nr.1 nr.2)
    []
  if actions.length > rules.maxActionsPerCycle then
    (sortByKeyDesc (trimKey st) actions).take rules.maxActionsPerCycle
  else actions

/-- `ClimatIQController._is_in_unstable_zone` (lines 816-821). -/
def inUnstableZone (zones : List (ℚ × ℚ)) (power : ℚ) : Bool :=
  zones.any (fun z => decide (z.1 ≤ power) && decide (power ≤ z.2))

/-- Outcome of one control cycle: either the early "unstable zone, delta OK -
waiting" return (line 782-788), or the decided list of actions. -/
inductive CycleOutcome where
  | waiting
  | acted (actions : List RoomAction)
  deriving DecidableEq

/-- Embeds the decision part of `ClimatIQController.control_cycle`
(lines 764-803): threshold validation, emergency flag from the total
absolute delta, unstable-zone wait, and the call to `decide_actions`. -/
def controlCycle (rules : Rules) (zones : List (ℚ × ℚ)) (now : ℤ) (hour : ℕ)
    (last : String → Option ℤ) (st : CtrlState) : CycleOutcome :=
  let threshold := (validateEmergencyThreshold rules.emergencyDeltaThreshold).1
  let isEmergency : Bool := decide (totalDeltaAbs st > threshold)
  let inUnstable := inUnstableZone zones st.power
  if inUnstable && !isEmergency then .waiting
  else .acted (decideActions rules now hour last st isEmergency)

/-! ## Theorems for claim C4 -/

/-- Concrete rules used in the C4 counterexample (the repository's
documented defaults). -/
def exRules : Rules :=
  { tolCold := 3/2, tolWarm := 1, targetStep := 1/2, targetMax := 24,
    targetMin := 16, minActionInterval := 15, emergencyActionInterval := 7,
    maxActionsPerCycle := 2, emergencyDeltaThreshold := some (CVal.num 6) }

/-- Concrete state for the C4 counterexample: a single room 2.0 K too cold
(beyond tolerance_cold = 1.5 K) while the aggregate power 1000 W lies in the
unstable zone [800, 1200]. -/
def exState : CtrlState :=
  { power := 1000,
    rooms := [("living", { delta := -2, targetTemp := 21, isOn := false,
                           unitMode := "heat" })] }

/-- C4 counterexample: a room's deviation exceeds its tolerance and the
power is inside a historically unstable zone, yet the control cycle takes
the early "waiting" return and issues no action at all — the claimed
per-room-tolerance emergency does not fire because the emergency flag is
the total absolute delta (2.0 K) compared against the validated threshold
(6.0 K). -/
theorem c4_emergency_override_counterexample :
    (∃ r ∈ exState.rooms,
        r.2.delta < -exRules.tolCold ∨ r.2.delta > exRules.tolWarm) ∧
    inUnstableZone [(800, 1200)] exState.power = true ∧
    controlCycle exRules [(800, 1200)] 0 12 (fun _ => none) exState =
      CycleOutcome.waiting := by
  refine ⟨⟨("living", { delta := -2, targetTemp := 21, isOn := false,
                        unitMode := "heat" }), by simp [exState], Or.inl (by
      norm_num [exRules])⟩, ?_, ?_⟩
  · norm_num [inUnstableZone, exState]
  · have hth : (validateEmergencyThreshold exRules.emergencyDeltaThreshold).1 = 6 := by
      norm_num [validateEmergencyThreshold, exRules]
    have htot : totalDeltaAbs exState = 2 := by
      norm_num [totalDeltaAbs, exState, abs_of_nonpos]
    have hunst : inUnstableZone [((800 : ℚ), (1200 : ℚ))] exState.power = true := by
      norm_num [inUnstableZone, exState]
    rw [controlCycle, hth, htot, hunst]
    norm_num

/-- C4 amended: whenever the total absolute room deviation exceeds the
validated emergency threshold, the control cycle never takes the
"wait because we are in an unstable zone" early return — even inside an
unstable zone it proceeds to `decide_actions` with the emergency flag set
(the resulting action list may still be empty, e.g. when every room is in
its emergency cooldown). -/
theorem c4_emergency_bypasses_unstable_wait (rules : Rules)
    (zones : List (ℚ × ℚ)) (now : ℤ) (hour : ℕ) (last : String → Option ℤ)
    (st : CtrlState)
    (hem : totalDeltaAbs st >
      (validateEmergencyThreshold rules.emergencyDeltaThreshold).1) :
    controlCycle rules zones now hour last st =
      CycleOutcome.acted (decideActions rules now hour last st true) := by
  simp [controlCycle, decide_eq_true hem]

/-- Witness for C4 amended: a room 7.0 K too cold (total delta 7.0 K > 6.0 K)
inside the unstable zone still reaches `decide_actions`. -/
theorem c4_emergency_bypasses_unstable_wait_witness :
    controlCycle exRules [(800, 1200)] 0 12 (fun _ => none)
      { power := 1000,
        rooms := [("living", { delta := -7, targetTemp := 21, isOn := false,
                               unitMode := "heat" })] } =
      CycleOutcome.acted (decideActions exRules 0 12 (fun _ => none)
        { power := 1000,
          rooms := [("living", { delta := -7, targetTemp := 21, isOn := false,
                                 unitMode := "heat" })] } true) := by
  apply c4_emergency_bypasses_unstable_wait
  norm_num [totalDeltaAbs, validateEmergencyThreshold, exRules, abs_of_nonpos]

/-! ## Control ticks and the per-room cooldown (claim C5) -/

/-- One control tick: the state read by the cycle, the emergency flag of
that cycle, the tick time in minutes, and the wall-clock hour. -/
structure Tick where
  st : CtrlState
  isEmergency : Bool
  now : ℤ
  hour : ℕ
  deriving DecidableEq

def dTick : Tick := ⟨⟨0, []⟩, false, 0, 0⟩

/-- Embeds the `last_action_time` updates performed when executing an
action (`execute_action` lines 1006-1032 delegating to `turn_room_off` /
`turn_room_on` lines 220-259, each of which stamps
`self.last_action_time[room] = datetime.now()`).  The model assumes the
Home Assistant service calls succeed and every acted-on room is
configured — the regime the cooldown property speaks about. -/
def execUpdate (now : ℤ) (actions : List RoomAction)
    (last : String → Option ℤ) : String → Option ℤ :=
  actions.foldl (fun m a => fun r => if r = a.room then some now else m r) last

/-- One control tick: decide the actions from the current
`last_action_time` map, then execute them all. -/
def stepTick (rules : Rules) (last : String → Option ℤ) (t : Tick) :
    String → Option ℤ :=
  execUpdate t.now (decideActions rules t.now t.hour last t.st t.isEmergency) last

/-- The `last_action_time` map before the `j`-th tick of a run starting
from the empty map. -/
def mapBefore (rules : Rules) (ticks : List Tick) (j : ℕ) :
    String → Option ℤ :=
  (ticks.take j).foldl (stepTick rules) (fun _ => none)

/-- The actions issued at the `j`-th tick of the run. -/
def actsAt (rules : Rules) (ticks : List Tick) (j : ℕ) : List RoomAction :=
  decideActions rules (ticks.getD j dTick).now (ticks.getD j dTick).hour
    (mapBefore rules ticks j) (ticks.getD j dTick).st
    (ticks.getD j dTick).isEmergency

/-- Every action contributed by a room carries that room's name. -/
theorem roomActions_room (rules : Rules) (isNight : Bool) (power : ℚ)
    (name : String) (room : RoomState) :
    ∀ a ∈ roomActions rules isNight power name room, a.room = name := by
  intro a ha
  simp only [roomActions] at ha
  split at ha
  · simp only [List.mem_singleton] at ha
    subst ha; rfl
  split at ha
  · simp only [List.mem_singleton] at ha
    subst ha; rfl
  rcases List.mem_append.1 ha with h | h
  · split at h
    · split at h
      · simp only [List.mem_singleton] at h; subst h; rfl
      · split at h
        · simp only [List.mem_singleton] at h; subst h; rfl
        · simp at h
    · split at h
      · split at h
        · split at h
          · simp only [List.mem_singleton] at h; subst h; rfl
          · simp at h
        · simp at h
      · simp at h
  · split at h
    · simp only [List.mem_singleton] at h; subst h; rfl
    · simp at h

theorem mem_insertByKeyDesc (key : RoomAction → ℚ) (x a : RoomAction) :
    ∀ l, a ∈ insertByKeyDesc key x l → a = x ∨ a ∈ l := by
  intro l
  induction l with
  | nil =>
    intro h
    simp only [insertByKeyDesc, List.mem_singleton] at h
    exact Or.inl h
  | cons b bs ih =>
    intro h
    rw [insertByKeyDesc] at h
    split at h
    · rcases List.mem_cons.1 h with rfl | h2
      · exact Or.inr (List.mem_cons_self _ _)
      · rcases ih h2 with h3 | h3
        · exact Or.inl h3
        · exact Or.inr (List.mem_cons_of_mem _ h3)
    · rcases List.mem_cons.1 h with rfl | h2
      · exact Or.inl rfl
      · exact Or.inr h2

theorem mem_sortByKeyDesc (key : RoomAction → ℚ) (a : RoomAction) :
    ∀ l, a ∈ sortByKeyDesc key l → a ∈ l := by
  intro l
  induction l with
  | nil =>
    intro h
    simp only [sortByKeyDesc, List.not_mem_nil] at h
  | cons b bs ih =>
    intro h
    rw [sortByKeyDesc] at h
    rcases mem_insertByKeyDesc _ _ _ _ h with rfl | h2
    · exact List.mem_cons_self _ _
    · exact List.mem_cons_of_mem _ (ih h2)

/-- Membership in the per-room decision fold: an action comes from a room
that passed the cooldown gate. -/
theorem mem_decideFold (rules : Rules) (isNight : Bool) (power : ℚ)
    (now cooldown : ℤ) (last : String → Option ℤ) :
    ∀ (rooms : List (String × RoomState)) (acc : List RoomAction)
      (a : RoomAction),
      a ∈ rooms.foldl
        (fun acc nr =>
          if cooldownActive (last nr.1) now cooldown then acc
          else acc ++ roomActions rules isNight power nr.1 nr.2) acc →
      a ∈ acc ∨ ∃ nr ∈ rooms,
        cooldownActive (last nr.1) now cooldown = false ∧
        a ∈ roomActions rules isNight power nr.1 nr.2 := by
  intro rooms
  induction rooms with
  | nil => intro acc a h; exact Or.inl h
  | cons nr rest ih =>
    intro acc a h
    simp only [List.foldl_cons] at h
    rcases ih _ a h with h2 | ⟨nr2, hmem, hcd, hact⟩
    · by_cases hc : cooldownActive (last nr.1) now cooldown = true
      · rw [if_pos hc] at h2
        exact Or.inl h2
      · rw [if_neg hc] at h2
        rcases List.mem_append.1 h2 with h3 | h3
        · exact Or.inl h3
        · exact Or.inr ⟨nr, List.mem_cons_self _ _,
            Bool.not_eq_true _ ▸ Bool.eq_false_iff.2 (fun hcc => hc hcc), h3⟩
    · exact Or.inr ⟨nr2, List.mem_cons_of_mem _ hmem, hcd, hact⟩

/-- An action issued by `decide_actions` for a room with a recorded last
action time respects the effective cooldown. -/
theorem decideActions_cooldown (rules : Rules) (now : ℤ) (hour : ℕ)
    (last : String → Option ℤ) (st : CtrlState) (isEmergency : Bool)
    (a : RoomAction) (ha : a ∈ decideActions rules now hour last st isEmergency)
    (t : ℤ) (hlast : last a.room = some t) :
    now - t ≥ effectiveCooldown rules isEmergency := by
  have hmem : a ∈ st.rooms.foldl
      (fun acc nr =>
        if cooldownActive (last nr.1) now (effectiveCooldown rules isEmergency)
        then acc
        else acc ++ roomActions rules
          (decide (23 ≤ hour) || decide (hour < 6)) st.power nr.1 nr.2)
      [] := by
    simp only [decideActions] at ha
    split at ha
    · exact mem_sortByKeyDesc _ _ _ (List.take_subset _ _ ha)
    · exact ha
  rcases mem_decideFold rules _ st.power now _ last st.rooms [] a hmem with
    h | ⟨nr, _, hcd, hact⟩
  · simp at h
  · have hroom : a.room = nr.1 := roomActions_room rules _ st.power nr.1 nr.2 a hact
    rw [hroom] at hlast
    rw [hlast] at hcd
    simp only [cooldownActive, decide_eq_false_iff_not, not_lt] at hcd
    exact hcd

theorem execUpdate_miss (now : ℤ) (actions : List RoomAction)
    (last : String → Option ℤ) (r : String)
    (h : ∀ a ∈ actions, a.room ≠ r) :
    execUpdate now actions last r = last r := by
  induction actions generalizing last with
  | nil => rfl
  | cons a as ih =>
    simp only [execUpdate, List.foldl_cons] at *
    rw [ih _ (fun b hb => h b (List.mem_cons_of_mem _ hb))]
    have : r ≠ a.room := fun hc => h a (List.mem_cons_self _ _) hc.symm
    simp [this]

theorem execUpdate_hit (now : ℤ) (actions : List RoomAction)
    (last : String → Option ℤ) (r : String)
    (h : ∃ a ∈ actions, a.room = r) :
    execUpdate now actions last r = some now := by
  induction actions generalizing last with
  | nil => simp at h
  | cons a as ih =>
    simp only [execUpdate, List.foldl_cons] at *
    by_cases hs : ∃ b ∈ as, b.room = r
    · exact ih _ hs
    · have har : a.room = r := by
        rcases h with ⟨b, hb, hbr⟩
        rcases List.mem_cons.1 hb with rfl | hbin
        · exact hbr
        · exact absurd ⟨b, hbin, hbr⟩ hs
      have hmiss : ∀ b ∈ as, b.room ≠ r := fun b hb hbr => hs ⟨b, hb, hbr⟩
      have hstep := execUpdate_miss now as
        (fun r' => if r' = a.room then some now else last r') r hmiss
      simp only [execUpdate] at hstep
      rw [hstep]
      simp [har.symm]

theorem mapBefore_succ (rules : Rules) (ticks : List Tick) (j : ℕ)
    (hj : j < ticks.length) :
    mapBefore rules ticks (j + 1) =
      stepTick rules (mapBefore rules ticks j) (ticks.getD j dTick) := by
  unfold mapBefore
  rw [List.take_succ, List.foldl_append]
  have hg : ticks[j]? = some (ticks.getD j dTick) := by
    rw [List.getD_eq_getElem ticks dTick hj]
    exact List.getElem?_eq_getElem hj
  rw [hg]
  rfl

/-- One tick preserves "the room is stamped with a time at least `b`",
provided the tick itself happens no earlier than `b`. -/
theorem stepTick_preserve (rules : Rules) (m : String → Option ℤ) (t : Tick)
    (r : String) (b : ℤ) (hm : ∃ t0, m r = some t0 ∧ b ≤ t0)
    (hb : b ≤ t.now) :
    ∃ t1, stepTick rules m t r = some t1 ∧ b ≤ t1 := by
  by_cases h : ∃ a ∈ decideActions rules t.now t.hour m t.st t.isEmergency,
      a.room = r
  · exact ⟨t.now, execUpdate_hit _ _ _ _ h, hb⟩
  · push_neg at h
    rcases hm with ⟨t0, hm0, hbt⟩
    exact ⟨t0, (execUpdate_miss _ _ _ _ h).trans hm0, hbt⟩

theorem mapBefore_ge (rules : Rules) (ticks : List Tick) (r : String) (b : ℤ)
    (i : ℕ)
    (hbase : ∃ t0, mapBefore rules ticks (i + 1) r = some t0 ∧ b ≤ t0)
    (hnows : ∀ m, i < m → m < ticks.length → b ≤ (ticks.getD m dTick).now) :
    ∀ k, i + 1 ≤ k → k ≤ ticks.length →
      ∃ t1, mapBefore rules ticks k r = some t1 ∧ b ≤ t1 := by
  intro k
  induction k with
  | zero => intro h1 _; omega
  | succ n ih =>
    intro h1 h2
    rcases Nat.lt_or_ge n (i + 1) with hge | hlt
    · have heq : n + 1 = i + 1 := by omega
      rw [heq]
      exact hbase
    · have hnlen : n < ticks.length := by omega
      have prev := ih hlt (le_of_lt hnlen)
      rw [mapBefore_succ rules ticks n hnlen]
      exact stepTick_preserve rules _ _ r b prev (hnows n (by omega) hnlen)

/-- C5: along any run of control ticks with nondecreasing tick times, if an
action for room `r` is issued at tick `i` and again at a later tick `j`,
then at least the effective cooldown of tick `j` has elapsed between the
two tick times — the normal per-room cooldown, or the (shorter) emergency
interval when tick `j` is flagged emergency. -/
theorem c5_room_cooldown (rules : Rules) (ticks : List Tick)
    (hmono : List.Chain' (fun a b => a.now ≤ b.now) ticks)
    (i j : ℕ) (hij : i < j) (hj : j < ticks.length) (r : String)
    (ai : RoomAction) (hai : ai ∈ actsAt rules ticks i) (hri : ai.room = r)
    (aj : RoomAction) (haj : aj ∈ actsAt rules ticks j) (hrj : aj.room = r) :
    (ticks.getD j dTick).now - (ticks.getD i dTick).now ≥
      effectiveCooldown rules (ticks.getD j dTick).isEmergency := by
  have hi : i < ticks.length := lt_trans hij hj
  have hpair : List.Pairwise (fun a b : Tick => a.now ≤ b.now) ticks := by
    haveI : IsTrans Tick (fun a b : Tick => a.now ≤ b.now) :=
      ⟨fun _ _ _ h1 h2 => le_trans h1 h2⟩
    exact List.chain'_iff_pairwise.mp hmono
  have hmono2 : ∀ m, i < m → m < ticks.length →
      (ticks.getD i dTick).now ≤ (ticks.getD m dTick).now := by
    intro m him hmlen
    have hp := List.pairwise_iff_get.mp hpair ⟨i, hi⟩ ⟨m, hmlen⟩ him
    rw [List.getD_eq_getElem ticks dTick hi, List.getD_eq_getElem ticks dTick hmlen]
    simpa [List.get_eq_getElem] using hp
  have hbase : mapBefore rules ticks (i + 1) r =
      some (ticks.getD i dTick).now := by
    rw [mapBefore_succ rules ticks i hi]
    exact execUpdate_hit _ _ _ _ ⟨ai, hai, hri⟩
  rcases mapBefore_ge rules ticks r (ticks.getD i dTick).now i
      ⟨_, hbase, le_refl _⟩ hmono2 j (Nat.succ_le_of_lt hij) (le_of_lt hj)
    with ⟨t1, hmj, hbt⟩
  have hcd := decideActions_cooldown rules (ticks.getD j dTick).now
    (ticks.getD j dTick).hour (mapBefore rules ticks j) (ticks.getD j dTick).st
    (ticks.getD j dTick).isEmergency aj haj t1 (by rw [hrj]; exact hmj)
  linarith

/-- Concrete two-tick run for the C5 witness: the room acts at time 0 and
again at time 20, beyond the normal 15-minute cooldown. -/
def wTick0 : Tick := ⟨exState, false, 0, 12⟩

def wTick1 : Tick := ⟨exState, false, 20, 12⟩

def wTicks : List Tick := [wTick0, wTick1]

def wAction : RoomAction := ⟨"living", .turnOn, none, none⟩

/-- Witness for C5 at the concrete two-tick run. -/
theorem c5_room_cooldown_witness :
    (wTicks.getD 1 dTick).now - (wTicks.getD 0 dTick).now ≥
      effectiveCooldown exRules (wTicks.getD 1 dTick).isEmergency := by
  have h0 : wAction ∈ actsAt exRules wTicks 0 := by
    norm_num [actsAt, decideActions, mapBefore, roomActions, cooldownActive,
      effectiveCooldown, exRules, exState, wTicks, wTick0, wTick1, dTick,
      wAction, List.foldl]
  have h1 : wAction ∈ actsAt exRules wTicks 1 := by
    norm_num [actsAt, decideActions, mapBefore, stepTick, execUpdate,
      roomActions, cooldownActive, effectiveCooldown, exRules, exState,
      wTicks, wTick0, wTick1, dTick, wAction, List.foldl, List.take]
  exact c5_room_cooldown exRules wTicks
    (by norm_num [wTicks, wTick0, wTick1, List.chain'_cons])
    0 1 (by norm_num) (by norm_num [wTicks]) "living"
    wAction h0 rfl wAction h1 rfl

/-! ## CyclingDetector (src/climatiq/analysis/cycling_detector.py)

A power series is a list of (timestamp in minutes, watts) pairs with
nondecreasing timestamps (a pandas Series with datetime index).  A pandas
time-based rolling window at row `i` covers the rows `j ≤ i` with
`t_j ∈ (t_i − window, t_i]`.  Sample standard deviations (ddof = 1) take a
square root, so scores live in ℝ; the standard deviation of a one-element
window is NaN, modelled as `none` and turned into 0 by the source's
`.fillna(0)`.  pandas division of a nonzero number by an exactly-zero
rolling mean would give ±inf where Lean's total division gives 0; the
theorems below only evaluate the embedding where the two semantics agree
(zero numerators, or nonzero means). -/

abbrev PSeries := List (ℤ × ℚ)

def tAt (s : PSeries) (i : ℕ) : ℤ := (s.getD i (0, 0)).1

def vAt (s : PSeries) (i : ℕ) : ℚ := (s.getD i (0, 0)).2

def meanQ (l : List ℚ) : ℚ := l.sum / l.length

def maxQ (l : List ℚ) : ℚ := l.foldr max (l.headD 0)

def minQ (l : List ℚ) : ℚ := l.foldr min (l.headD 0)

/-- Row indices of the rolling time window `(t_i − w, t_i]` at row `i`. -/
def windowIdx (w : ℤ) (s : PSeries) (i : ℕ) : List ℕ :=
  (List.range (i + 1)).filter (fun j => decide (tAt s i - w < tAt s j))

def windowVals (w : ℤ) (s : PSeries) (i : ℕ) : List ℚ :=
  (windowIdx w s i).map (vAt s)

/-- Sample standard deviation with ddof = 1 (pandas `.std()`); `none`
models the NaN produced on windows with fewer than two samples. -/
noncomputable def sampleStd (l : List ℚ) : Option ℝ :=
  if l.length < 2 then none
  else some (Real.sqrt
    ((l.map (fun x : ℚ => (x - meanQ l : ℚ) ^ 2 : ℚ → ℝ)).sum /
      ((l.length : ℝ) - 1)))

/-- Component 1 of `calculate_instability_score` (lines 158-161):
`(rolling_std / rolling_mean).fillna(0)`. -/
noncomputable def stdScoreAt (w : ℤ) (s : PSeries) (i : ℕ) : ℝ :=
  match sampleStd (windowVals w s i) with
  | none => 0
  | some sd => sd / (meanQ (windowVals w s i) : ℝ)

/-- Component 2 (lines 163-166): relative rolling amplitude
`((rolling_max - rolling_min) / rolling_mean).fillna(0)`. -/
def ampScoreAt (w : ℤ) (s : PSeries) (i : ℕ) : ℚ :=
  (maxQ (windowVals w s i) - minQ (windowVals w s i)) / meanQ (windowVals w s i)

/-- `power_series.diff().fillna(0)` (line 169). -/
def diffAt (s : PSeries) (i : ℕ) : ℚ :=
  if i = 0 then 0 else vAt s i - vAt s (i - 1)

def signQ (q : ℚ) : ℤ := if q < 0 then -1 else if 0 < q then 1 else 0

/-- `(np.sign(diffs).diff().fillna(0) != 0).astype(int)` (line 170). -/
def dirChangeAt (s : PSeries) (i : ℕ) : ℚ :=
  if i = 0 then 0
  else if signQ (diffAt s i) ≠ signQ (diffAt s (i - 1)) then 1 else 0

/-- Component 3 (lines 168-171): rolling mean of the direction-change
indicator. -/
def freqScoreAt (w : ℤ) (s : PSeries) (i : ℕ) : ℚ :=
  meanQ ((windowIdx w s i).map (dirChangeAt s))

/-- `.clip(0.0, 1.0)` (line 176). -/
noncomputable def clip01 (x : ℝ) : ℝ := min (max x 0) 1

/-- Embeds `CyclingDetector.calculate_instability_score` (lines 139-176)
exactly as written in the source: the combination is
`std_score * 0.4 + amp_score * 0.4 + freq_score * 2.0`, clipped to [0,1].
(The source's inline comment announces weights 40% / 40% / 20%, but the
code multiplies the frequency component by 2.0, not 0.2.) -/
noncomputable def calculateInstabilityScore (w : ℤ) (s : PSeries) : List ℝ :=
  if s.isEmpty then []
  else (List.range s.length).map (fun i =>
    clip01 (stdScoreAt w s i * (4/10) + (ampScoreAt w s i : ℝ) * (4/10) +
      (freqScoreAt w s i : ℝ) * 2))

/-- The same computation with the documented weights: this follows the
words of the spec ("Combine with fixed weights 0.4 / 0.4 / 0.2 and clip to
[0,1]") and of the source's own inline comment, for comparison with
`calculateInstabilityScore`. -/
noncomputable def calculateInstabilityScoreDocumented (w : ℤ) (s : PSeries) :
    List ℝ :=
  if s.isEmpty then []
  else (List.range s.length).map (fun i =>
    clip01 (stdScoreAt w s i * (4/10) + (ampScoreAt w s i : ℝ) * (4/10) +
      (freqScoreAt w s i : ℝ) * (2/10)))

structure CycleEventM where
  startTime : ℤ
  endTime : ℤ
  durationMinutes : ℚ
  peakPower : ℚ
  avgPower : ℚ
  deriving DecidableEq

/-- One hysteresis update of `detect_cycles` (lines 103-110). -/
def hystStep (onThr offThr : ℚ) (st : Bool) (v : ℚ) : Bool :=
  if st then (if v < offThr then false else true)
  else (if v > onThr then true else false)

/-- Hysteresis state trace of `detect_cycles` (lines 99-110): each sample
updates the state, which is then recorded. -/
def hystStates (onThr offThr : ℚ) : Bool → List ℚ → List Bool
  | _, [] => []
  | st, v :: vs =>
    hystStep onThr offThr st v ::
      hystStates onThr offThr (hystStep onThr offThr st v) vs

def boolToInt (b : Bool) : ℤ := if b then 1 else 0

/-- The full state trace of `detect_cycles`, starting from
`first sample > on_threshold` (line 101). -/
def cycleStates (onThr offThr : ℚ) (s : PSeries) : List Bool :=
  hystStates onThr offThr (decide ((s.map Prod.snd).headD 0 > onThr))
    (s.map Prod.snd)

/-- `states.astype(int).diff().fillna(0)` at row `i` (line 113). -/
def stateChangeAt (states : List Bool) (i : ℕ) : ℤ :=
  if i = 0 then 0
  else boolToInt (states.getD i false) - boolToInt (states.getD (i - 1) false)

/-- `on_times` (line 115): timestamps of the +1 transitions. -/
def cycleOnTimes (onThr offThr : ℚ) (s : PSeries) : List ℤ :=
  ((List.range s.length).filter
    (fun i => stateChangeAt (cycleStates onThr offThr s) i = 1)).map (tAt s)

/-- `off_times` (line 116): timestamps of the −1 transitions. -/
def cycleOffTimes (onThr offThr : ℚ) (s : PSeries) : List ℤ :=
  ((List.range s.length).filter
    (fun i => stateChangeAt (cycleStates onThr offThr s) i = -1)).map (tAt s)

/-- Embeds `CyclingDetector.detect_cycles` (lines 87-137): hysteresis
states, `states.diff()` transitions, and pairing of each on-transition
with the first later off-transition; the cycle slice is the label slice
`power_series[on:off]` (inclusive on both ends). -/
def detectCycles (onThr offThr : ℚ) (s : PSeries) : List CycleEventM :=
  if s.length < 2 then []
  else
    (cycleOnTimes onThr offThr s).filterMap (fun onT =>
      match (cycleOffTimes onThr offThr s).filter (fun t => onT < t) with
      | [] => none
      | offT :: _ =>
        let cyc := (s.filter (fun p => onT ≤ p.1 && p.1 ≤ offT)).map Prod.snd
        some ⟨onT, offT, ((offT - onT : ℤ) : ℚ), maxQ cyc, meanQ cyc⟩)

structure FluctEventM where
  startTime : ℤ
  endTime : ℤ
  durationMinutes : ℚ
  instabilityScore : ℝ
  amplitudeWatts : ℚ
  freqPerMinute : ℚ
  avgPower : ℚ

/-- Classical comparison on ℝ as a Bool (`scores > threshold`). -/
noncomputable def rgt (x y : ℝ) : Bool := @decide (y < x) (Classical.propDecidable _)

/-- `is_unstable = scores > self.instability_threshold` at row `i`
(line 191). -/
noncomputable def fluctUnstable (w : ℤ) (thr : ℝ) (s : PSeries) (i : ℕ) : Bool :=
  rgt ((calculateInstabilityScore w s).getD i 0) thr

/-- `starts` of `detect_fluctuations` (lines 194-200), including the
starting-unstable edge case. -/
noncomputable def fluctStarts (w : ℤ) (thr : ℝ) (s : PSeries) : List ℤ :=
  let base := ((List.range s.length).filter
    (fun i => decide (1 ≤ i) && fluctUnstable w thr s i &&
      !fluctUnstable w thr s (i - 1))).map (tAt s)
  if fluctUnstable w thr s 0 then tAt s 0 :: base else base

/-- `ends` of `detect_fluctuations` (lines 194-202), including the
ending-unstable edge case. -/
noncomputable def fluctEnds (w : ℤ) (thr : ℝ) (s : PSeries) : List ℤ :=
  let base := ((List.range s.length).filter
    (fun i => decide (1 ≤ i) && !fluctUnstable w thr s i &&
      fluctUnstable w thr s (i - 1))).map (tAt s)
  if fluctUnstable w thr s (s.length - 1) then base ++ [tAt s (s.length - 1)]
  else base

/-- Embeds `CyclingDetector.detect_fluctuations` (lines 178-228):
threshold the score series, find contiguous unstable runs (with the
open-ended edge cases of lines 198-202), and summarise each run of at
least two samples. -/
noncomputable def detectFluctuations (w : ℤ) (thr : ℝ) (s : PSeries) :
    List FluctEventM :=
  let scores := calculateInstabilityScore w s
  if scores.isEmpty then []
  else
    let n := s.length
    ((fluctStarts w thr s).zip (fluctEnds w thr s)).filterMap (fun se =>
      let period := s.filter (fun p => se.1 ≤ p.1 && p.1 ≤ se.2)
      if period.length < 2 then none
      else
        let idxs := (List.range n).filter
          (fun i => se.1 ≤ tAt s i && tAt s i ≤ se.2)
        let pvals := period.map Prod.snd
        let duration : ℚ := ((se.2 - se.1 : ℤ) : ℚ)
        let pdiff : ℕ → ℚ := fun k =>
          if k = 0 then 0 else pvals.getD k 0 - pvals.getD (k - 1) 0
        let dirchg := ((List.range period.length).filter (fun k =>
          decide (1 ≤ k) && decide (signQ (pdiff k) ≠ signQ (pdiff (k - 1))))).length
        some ⟨se.1, se.2, duration,
          (idxs.map (fun i => scores.getD i 0)).sum / (idxs.length : ℝ),
          maxQ pvals - minQ pvals,
          (dirchg : ℚ) / (if duration > 0 then duration else 1),
          meanQ pvals⟩)

/-! ## Theorems for claim C1 -/

/-- Failing input for C1: three samples 10+ minutes apart, so every rolling
window holds a single row and only the direction-change component is
nonzero. -/
def exC1 : PSeries := [(0, 100), (20, 200), (40, 100)]

/-- `clip(0,1)` of a value at least 1 is 1. -/
theorem clip01_of_ge_one (x : ℝ) (h : 1 ≤ x) : clip01 x = 1 := by
  rw [clip01, max_eq_left (le_trans zero_le_one h), min_eq_right h]

/-- `clip(0,1)` of a value in [0,1] is the value itself. -/
theorem clip01_of_mem (x : ℝ) (h0 : 0 ≤ x) (h1 : x ≤ 1) : clip01 x = x := by
  rw [clip01, max_eq_left h0, min_eq_left h1]

/-- C1 (code bug): at `exC1`, index 1, the shipped combination multiplies
the direction-change frequency (here 1) by 2.0, saturating the clip to
score 1.0; the documented weights 0.4 / 0.4 / 0.2 — stated both by the
spec and by the source's own inline comment — give 0.2.  The code
disagrees with its documentation wherever the frequency component is
nonzero. -/
theorem c1_frequency_weight_code_bug :
    (calculateInstabilityScore 10 exC1).getD 1 0 = 1 ∧
    (calculateInstabilityScoreDocumented 10 exC1).getD 1 0 = 1/5 ∧
    (1 : ℝ) ≠ 1/5 := by
  have hidx : windowIdx 10 exC1 1 = [1] := by decide
  have hvals : windowVals 10 exC1 1 = [200] := by decide
  have hstdnone : sampleStd [(200 : ℚ)] = none := by simp [sampleStd]
  have hstd : stdScoreAt 10 exC1 1 = 0 := by
    unfold stdScoreAt
    rw [hvals, hstdnone]
  have hamp : ampScoreAt 10 exC1 1 = 0 := by
    rw [ampScoreAt, hvals]
    norm_num [maxQ, minQ, meanQ]
  have hfreq : freqScoreAt 10 exC1 1 = 1 := by
    rw [freqScoreAt, hidx]
    norm_num [dirChangeAt, diffAt, signQ, vAt, exC1, meanQ]
  have hne : exC1.isEmpty = false := by decide
  have hlen : exC1.length = 3 := by decide
  have hrange : List.range 3 = [0, 1, 2] := by decide
  refine ⟨?_, ?_, by norm_num⟩
  · rw [calculateInstabilityScore, hne]
    simp only [Bool.false_eq_true, if_false, hlen, hrange, List.map_cons,
      List.map_nil, List.getD_cons_succ, List.getD_cons_zero]
    rw [hstd, hamp, hfreq]
    rw [clip01_of_ge_one _ (by push_cast; norm_num)]
  · rw [calculateInstabilityScoreDocumented, hne]
    simp only [Bool.false_eq_true, if_false, hlen, hrange, List.map_cons,
      List.map_nil, List.getD_cons_succ, List.getD_cons_zero]
    rw [hstd, hamp, hfreq]
    rw [clip01_of_mem _ (by push_cast; norm_num) (by push_cast; norm_num)]
    push_cast
    norm_num

/-! ## Theorems for claim C6 -/

theorem sum_const_list (l : List ℚ) (c : ℚ) (h : ∀ x ∈ l, x = c) :
    l.sum = l.length * c := by
  induction l with
  | nil => simp
  | cons a as ih =>
    simp only [List.sum_cons, List.length_cons]
    rw [h a (List.mem_cons_self _ _),
      ih (fun x hx => h x (List.mem_cons_of_mem _ hx))]
    push_cast
    ring

theorem meanQ_const (l : List ℚ) (c : ℚ) (h : ∀ x ∈ l, x = c) (hne : l ≠ []) :
    meanQ l = c := by
  rw [meanQ, sum_const_list l c h]
  have hlen : (l.length : ℚ) ≠ 0 := by
    have : l.length ≠ 0 := fun hc => hne (List.length_eq_zero.1 hc)
    exact_mod_cast this
  field_simp

theorem foldr_max_const (c : ℚ) (l : List ℚ) (h : ∀ x ∈ l, x = c) :
    l.foldr max c = c := by
  induction l with
  | nil => rfl
  | cons a as ih =>
    rw [List.foldr_cons, ih (fun x hx => h x (List.mem_cons_of_mem _ hx)),
      h a (List.mem_cons_self _ _), max_self]

theorem foldr_min_const (c : ℚ) (l : List ℚ) (h : ∀ x ∈ l, x = c) :
    l.foldr min c = c := by
  induction l with
  | nil => rfl
  | cons a as ih =>
    rw [List.foldr_cons, ih (fun x hx => h x (List.mem_cons_of_mem _ hx)),
      h a (List.mem_cons_self _ _), min_self]

theorem maxQ_const (l : List ℚ) (c : ℚ) (h : ∀ x ∈ l, x = c) (hne : l ≠ []) :
    maxQ l = c := by
  rcases l with _ | ⟨a, as⟩
  · exact absurd rfl hne
  · have ha : a = c := h a (List.mem_cons_self _ _)
    subst ha
    rw [maxQ, List.headD_cons]
    exact foldr_max_const a _ h

theorem minQ_const (l : List ℚ) (c : ℚ) (h : ∀ x ∈ l, x = c) (hne : l ≠ []) :
    minQ l = c := by
  rcases l with _ | ⟨a, as⟩
  · exact absurd rfl hne
  · have ha : a = c := h a (List.mem_cons_self _ _)
    subst ha
    rw [minQ, List.headD_cons]
    exact foldr_min_const a _ h

/-- The sample standard deviation of a constant window of at least two
samples is exactly 0. -/
theorem sampleStd_const (l : List ℚ) (c : ℚ) (h : ∀ x ∈ l, x = c)
    (hlen : 2 ≤ l.length) : sampleStd l = some 0 := by
  rw [sampleStd, if_neg (by omega)]
  have hne : l ≠ [] := by
    intro hc
    rw [hc] at hlen
    simp at hlen
  have hm : meanQ l = c := meanQ_const l c h hne
  have hz : ∀ y ∈ l.map (fun x : ℚ => (x - meanQ l : ℚ) ^ 2 : ℚ → ℝ), y = 0 := by
    intro y hy
    obtain ⟨x, hx, hxy⟩ := List.mem_map.1 hy
    rw [← hxy, h x hx, hm]
    simp
  rw [List.sum_eq_zero hz]
  simp

theorem vAt_const (s : PSeries) (c : ℚ) (h : ∀ p ∈ s, p.2 = c) (i : ℕ)
    (hi : i < s.length) : vAt s i = c := by
  rw [vAt, List.getD_eq_getElem s (0, 0) hi]
  exact h _ (List.getElem_mem hi)

theorem windowIdx_lt (w : ℤ) (s : PSeries) (i : ℕ) :
    ∀ j ∈ windowIdx w s i, j ≤ i := by
  intro j hj
  have := List.mem_range.1 (List.mem_filter.1 hj).1
  omega

theorem windowVals_const (w : ℤ) (s : PSeries) (c : ℚ)
    (h : ∀ p ∈ s, p.2 = c) (i : ℕ) (hi : i < s.length) :
    ∀ x ∈ windowVals w s i, x = c := by
  intro x hx
  rcases List.mem_map.1 hx with ⟨j, hj, rfl⟩
  exact vAt_const s c h j (by have := windowIdx_lt w s i j hj; omega)

/-- On a constant series every component of the instability score
vanishes. -/
theorem scoreComponents_zero_of_const (w : ℤ) (s : PSeries) (c : ℚ)
    (h : ∀ p ∈ s, p.2 = c) (i : ℕ) (hi : i < s.length) :
    stdScoreAt w s i = 0 ∧ ampScoreAt w s i = 0 ∧ freqScoreAt w s i = 0 := by
  refine ⟨?_, ?_, ?_⟩
  · by_cases hlen : (windowVals w s i).length < 2
    · have hn : sampleStd (windowVals w s i) = none := by
        rw [sampleStd, if_pos hlen]
      unfold stdScoreAt
      rw [hn]
    · have h0 : sampleStd (windowVals w s i) = some 0 :=
        sampleStd_const _ c (windowVals_const w s c h i hi) (by omega)
      unfold stdScoreAt
      rw [h0]
      exact zero_div _
  · rw [ampScoreAt]
    by_cases hne : windowVals w s i = []
    · rw [hne]
      norm_num [maxQ, minQ, meanQ]
    · rw [maxQ_const _ c (windowVals_const w s c h i hi) hne,
        minQ_const _ c (windowVals_const w s c h i hi) hne]
      simp
  · rw [freqScoreAt]
    have hz : ∀ y ∈ (windowIdx w s i).map (dirChangeAt s), y = 0 := by
      intro y hy
      rcases List.mem_map.1 hy with ⟨j, hj, rfl⟩
      have hj2 : j < s.length := by
        have := windowIdx_lt w s i j hj
        omega
      rcases Nat.eq_zero_or_pos j with rfl | hjpos
      · rw [dirChangeAt, if_pos rfl]
      · rw [dirChangeAt, if_neg (by omega)]
        have hd1 : diffAt s j = 0 := by
          rw [diffAt, if_neg (by omega), vAt_const s c h j hj2,
            vAt_const s c h (j - 1) (by omega)]
          ring
        have hd0 : diffAt s (j - 1) = 0 := by
          rcases Nat.eq_zero_or_pos (j - 1) with he | hp
          · rw [he, diffAt, if_pos rfl]
          · rw [diffAt, if_neg (by omega), vAt_const s c h (j - 1) (by omega),
              vAt_const s c h (j - 1 - 1) (by omega)]
            ring
        rw [hd1, hd0, if_neg (by simp)]
    rw [meanQ, List.sum_eq_zero hz]
    simp

/-- On a constant series the shipped instability score is identically 0. -/
theorem instabilityScore_zero_of_const (w : ℤ) (s : PSeries) (c : ℚ)
    (h : ∀ p ∈ s, p.2 = c) :
    ∀ x ∈ calculateInstabilityScore w s, x = 0 := by
  intro x hx
  rw [calculateInstabilityScore] at hx
  split at hx
  · simp at hx
  · rcases List.mem_map.1 hx with ⟨i, hi, rfl⟩
    have hilen : i < s.length := List.mem_range.1 hi
    obtain ⟨h1, h2, h3⟩ := scoreComponents_zero_of_const w s c h i hilen
    rw [h1, h2, h3]
    have hsum : (0 : ℝ) * (4/10) + ((0 : ℚ) : ℝ) * (4/10) + ((0 : ℚ) : ℝ) * 2
        = 0 := by
      push_cast
      ring
    rw [hsum, clip01_of_mem 0 le_rfl zero_le_one]

/-- With sane hysteresis thresholds (`off ≤ on`), the initial state of
`detect_cycles` is a fixpoint of the update at the constant value. -/
theorem hystStep_fix (onThr offThr c : ℚ) (hsane : offThr ≤ onThr) :
    hystStep onThr offThr (decide (c > onThr)) c = decide (c > onThr) := by
  by_cases hc : c > onThr
  · have hoff : ¬ c < offThr := by
      intro hcc
      linarith
    simp [hystStep, hc, hoff]
  · simp [hystStep, hc]

theorem hystStates_const (onThr offThr c : ℚ) (st : Bool)
    (hfix : hystStep onThr offThr st c = st) :
    ∀ l : List ℚ, (∀ v ∈ l, v = c) →
      hystStates onThr offThr st l = List.replicate l.length st := by
  intro l
  induction l with
  | nil => intro _; rfl
  | cons a as ih =>
    intro hall
    have ha : a = c := hall a (List.mem_cons_self _ _)
    subst ha
    rw [hystStates, hfix, ih (fun v hv => hall v (List.mem_cons_of_mem _ hv)),
      List.length_cons, List.replicate_succ]

/-- On a constant series the hysteresis state never changes, so
`detect_cycles` finds no on-transition. -/
theorem cycleOnTimes_nil_of_const (onThr offThr : ℚ) (s : PSeries) (c : ℚ)
    (h : ∀ p ∈ s, p.2 = c) (hsane : offThr ≤ onThr) :
    cycleOnTimes onThr offThr s = [] := by
  rcases hs : s with _ | ⟨p0, rest⟩
  · rfl
  rw [← hs]
  have hsne : s ≠ [] := by
    rw [hs]
    exact List.cons_ne_nil _ _
  have hvals : ∀ v ∈ s.map Prod.snd, v = c := by
    intro v hv
    rcases List.mem_map.1 hv with ⟨p, hp, rfl⟩
    exact h p hp
  have hhead : (s.map Prod.snd).headD 0 = c := by
    rw [hs] at hvals ⊢
    exact hvals _ (List.mem_cons_self _ _)
  have hstates : cycleStates onThr offThr s =
      List.replicate s.length (decide (c > onThr)) := by
    rw [cycleStates, hhead]
    have := hystStates_const onThr offThr c (decide (c > onThr))
      (hystStep_fix onThr offThr c hsane) (s.map Prod.snd) hvals
    rw [this, List.length_map]
  rw [cycleOnTimes, hstates]
  have hfil : (List.range s.length).filter
      (fun i => stateChangeAt (List.replicate s.length (decide (c > onThr))) i
        = 1) = [] := by
    rw [List.filter_eq_nil_iff]
    intro i hi
    have hilen : i < s.length := List.mem_range.1 hi
    simp only [decide_eq_true_eq]
    rcases Nat.eq_zero_or_pos i with rfl | hpos
    · rw [stateChangeAt, if_pos rfl]
      omega
    · have hgi : (List.replicate s.length (decide (c > onThr))).getD i false
          = decide (c > onThr) := by
        rw [List.getD_eq_getElem _ false (by simpa using hilen)]
        simp
      have hgi1 : (List.replicate s.length (decide (c > onThr))).getD (i - 1)
          false = decide (c > onThr) := by
        rw [List.getD_eq_getElem _ false (by simp; omega)]
        simp
      rw [stateChangeAt, if_neg (by omega), hgi, hgi1]
      omega
  rw [hfil]
  rfl

theorem detectCycles_const (onThr offThr : ℚ) (s : PSeries) (c : ℚ)
    (h : ∀ p ∈ s, p.2 = c) (hsane : offThr ≤ onThr) :
    detectCycles onThr offThr s = [] := by
  rw [detectCycles]
  split
  · rfl
  · rw [cycleOnTimes_nil_of_const onThr offThr s c h hsane]
    rfl

/-- On a constant series the instability score is 0 everywhere, so no
point is classified unstable and `detect_fluctuations` finds no run. -/
theorem fluctStarts_nil_of_const (w : ℤ) (thr : ℝ) (s : PSeries) (c : ℚ)
    (h : ∀ p ∈ s, p.2 = c) (hthr : 0 ≤ thr) :
    fluctStarts w thr s = [] := by
  have hunst : ∀ i, fluctUnstable w thr s i = false := by
    intro i
    rw [fluctUnstable]
    have hget : (calculateInstabilityScore w s).getD i 0 = 0 := by
      by_cases hi : i < (calculateInstabilityScore w s).length
      · rw [List.getD_eq_getElem _ 0 hi]
        exact instabilityScore_zero_of_const w s c h _ (List.getElem_mem hi)
      · exact List.getD_eq_default _ _ (by omega)
    rw [hget, rgt]
    exact decide_eq_false (not_lt.2 hthr)
  rw [fluctStarts]
  simp only [hunst, Bool.and_false, Bool.false_and, Bool.if_false_right,
    Bool.and_self]
  simp [List.filter_eq_nil_iff]

theorem detectFluctuations_const (w : ℤ) (thr : ℝ) (s : PSeries) (c : ℚ)
    (h : ∀ p ∈ s, p.2 = c) (hthr : 0 ≤ thr) :
    detectFluctuations w thr s = [] := by
  rw [detectFluctuations]
  split
  · rfl
  · rw [fluctStarts_nil_of_const w thr s c h hthr]
    rfl

/-- C6: on a constant power series longer than the minimum rolling window
the instability score is 0 at every point, and — with sane hysteresis
thresholds (`off ≤ on`) and a nonnegative instability threshold — both
`detect_cycles` and `detect_fluctuations` return empty lists. -/
theorem c6_constant_series (w : ℤ) (s : PSeries) (c : ℚ)
    (onThr offThr : ℚ) (thr : ℝ)
    (hconst : ∀ p ∈ s, p.2 = c) (_hlen : 10 < s.length)
    (hsane : offThr ≤ onThr) (hthr : 0 ≤ thr) :
    (∀ x ∈ calculateInstabilityScore w s, x = 0) ∧
    detectCycles onThr offThr s = [] ∧
    detectFluctuations w thr s = [] :=
  ⟨instabilityScore_zero_of_const w s c hconst,
   detectCycles_const onThr offThr s c hconst hsane,
   detectFluctuations_const w thr s c hconst hthr⟩

/-- Concrete constant series (11 one-minute samples at 5 W) for the C6
witness. -/
def exC6 : PSeries :=
  [(0, 5), (1, 5), (2, 5), (3, 5), (4, 5), (5, 5), (6, 5), (7, 5), (8, 5),
   (9, 5), (10, 5)]

/-- Witness for C6 at `exC6` with the detector's default thresholds. -/
theorem c6_constant_series_witness :
    (∀ x ∈ calculateInstabilityScore 10 exC6, x = 0) ∧
    detectCycles 200 100 exC6 = [] ∧
    detectFluctuations 10 (1/2) exC6 = [] :=
  c6_constant_series 10 exC6 5 200 100 (1/2)
    (by decide) (by norm_num [exC6]) (by norm_num) (by norm_num)

/-! ## LiveObserver (src/climatiq/core/observer.py) -/

/-- Count-based rolling window of `series.rolling(window=w, min_periods=1)`
at row `i`: the last `min(w, i + 1)` values up to and including row `i`. -/
def obsWindow (xs : List ℚ) (w i : ℕ) : List ℚ :=
  (xs.take (i + 1)).drop (i + 1 - w)

/-- `series.rolling(window=w, min_periods=1).std()` (observer.py line 171):
NaN (`none`) on one-element windows. -/
noncomputable def obsRollingStd (xs : List ℚ) (w : ℕ) : List (Option ℝ) :=
  (List.range xs.length).map (fun i => sampleStd (obsWindow xs w i))

/-- pandas `.mean()` with its default NaN skipping (line 172). -/
noncomputable def meanSkipNa (l : List (Option ℝ)) : ℝ :=
  (l.filterMap id).sum / ((l.filterMap id).length : ℝ)

/-- Embeds `Observer._compute_instability_score` (observer.py lines
146-184).  `jumps` is `len(recent_jumps)`.  In order of appearance: the
early returns for short series and near-zero mean power, the rolling-std
component, the jump-frequency component (≥ 6 jumps saturate), the
amplitude component, the 0.4 / 0.35 / 0.25 weighting, and the final
clamp `min(1.0, max(0.0, score))`. -/
noncomputable def computeInstabilityScore (xs : List ℚ) (jumps : ℕ) : ℝ :=
  if xs.length < 3 then 0
  else if meanQ xs < 1 then 0
  else
    min 1 (max 0
      ((4/10) * min 1 (meanSkipNa (obsRollingStd xs (min 10 xs.length)) /
          (meanQ xs : ℝ)) +
       (35/100) * min 1 ((jumps : ℝ) / 6) +
       (25/100) * min 1 (((maxQ xs - minQ xs : ℚ) : ℝ) / (meanQ xs : ℝ))))

open Classical in
/-- Round-half-to-even (Python `round`) of a real number. -/
noncomputable def roundHalfEven (x : ℝ) : ℤ :=
  if Int.fract x < 1/2 then ⌊x⌋
  else if 1/2 < Int.fract x then ⌊x⌋ + 1
  else if Even ⌊x⌋ then ⌊x⌋ else ⌊x⌋ + 1

/-- Python `round(x, 2)`. -/
noncomputable def round2 (x : ℝ) : ℝ := (roundHalfEven (x * 100) : ℝ) / 100

/-- Embeds the `cycling_risk` update of `Observer._analyze_cycling`
(observer.py lines 141-144): `round(min(1.0, max(0.0, score)), 2)`. -/
noncomputable def cyclingRisk (xs : List ℚ) (jumps : ℕ) : ℝ :=
  round2 (min 1 (max 0 (computeInstabilityScore xs jumps)))

/-! ## Theorems for claim C10 -/

theorem roundHalfEven_le_of_le (z : ℝ) (hi : ℤ) (h2 : z ≤ hi) :
    roundHalfEven z ≤ hi := by
  have hfl : ⌊z⌋ ≤ hi := by
    rw [show hi = ⌊(hi : ℝ)⌋ from (Int.floor_intCast hi).symm]
    exact Int.floor_le_floor h2
  have hplus : ¬ Int.fract z < 1/2 → ⌊z⌋ + 1 ≤ hi := by
    intro hf
    push_neg at hf
    rcases lt_or_eq_of_le hfl with hlt | heq
    · omega
    · exfalso
      have hz : z ≤ (⌊z⌋ : ℝ) := by
        rw [heq]
        exact_mod_cast h2
      have hfr : z - (⌊z⌋ : ℝ) = Int.fract z := Int.self_sub_floor z
      linarith
  rw [roundHalfEven]
  split
  · exact hfl
  · rename_i hf
    split
    · exact hplus hf
    · split
      · exact hfl
      · exact hplus hf

theorem roundHalfEven_nonneg (z : ℝ) (h : 0 ≤ z) : 0 ≤ roundHalfEven z := by
  have hfl : 0 ≤ ⌊z⌋ := Int.floor_nonneg.2 h
  rw [roundHalfEven]
  split
  · exact hfl
  · split
    · omega
    · split
      · exact hfl
      · omega

/-- C10 amended: `_compute_instability_score` is total and bounded in
[0,1]; it returns exactly 0 when the series has fewer than 3 samples or
its mean power is below 1 W (so the divisions by the mean never divide by
zero); and the `cycling_risk` written to the status is this score clamped
to [0,1] *and rounded to two decimals* — hence itself always in [0,1]. -/
theorem c10_observer_score_bounded (xs : List ℚ) (jumps : ℕ) :
    (0 ≤ computeInstabilityScore xs jumps ∧
      computeInstabilityScore xs jumps ≤ 1) ∧
    ((xs.length < 3 ∨ meanQ xs < 1) → computeInstabilityScore xs jumps = 0) ∧
    cyclingRisk xs jumps =
      round2 (min 1 (max 0 (computeInstabilityScore xs jumps))) ∧
    (0 ≤ cyclingRisk xs jumps ∧ cyclingRisk xs jumps ≤ 1) := by
  have hbounds : 0 ≤ computeInstabilityScore xs jumps ∧
      computeInstabilityScore xs jumps ≤ 1 := by
    rw [computeInstabilityScore]
    split
    · exact ⟨le_refl 0, zero_le_one⟩
    · split
      · exact ⟨le_refl 0, zero_le_one⟩
      · constructor
        · exact le_min zero_le_one (le_max_left 0 _)
        · exact min_le_left _ _
  refine ⟨hbounds, ?_, rfl, ?_⟩
  · intro h
    rw [computeInstabilityScore]
    split
    · rfl
    · rename_i hlen
      rcases h with h | h
      · exact absurd h hlen
      · rw [if_pos h]
  · have hclamp0 : (0 : ℝ) ≤ min 1 (max 0 (computeInstabilityScore xs jumps)) :=
      le_min zero_le_one (le_max_left 0 _)
    have hclamp1 : min 1 (max 0 (computeInstabilityScore xs jumps)) ≤ 1 :=
      min_le_left _ _
    constructor
    · rw [cyclingRisk, round2]
      apply div_nonneg _ (by norm_num)
      exact_mod_cast roundHalfEven_nonneg _ (by nlinarith)
    · rw [cyclingRisk, round2, div_le_one (by norm_num)]
      have hle := roundHalfEven_le_of_le
        (min 1 (max 0 (computeInstabilityScore xs jumps)) * 100) 100
        (by push_cast; nlinarith)
      exact_mod_cast hle

/-- Witness for C10 at a two-sample series (the short-series early
return). -/
theorem c10_observer_score_bounded_witness :
    computeInstabilityScore [5, 5] 0 = 0 ∧
    (0 ≤ computeInstabilityScore [5, 5] 0 ∧
      computeInstabilityScore [5, 5] 0 ≤ 1) :=
  ⟨(c10_observer_score_bounded [5, 5] 0).2.1 (Or.inl (by norm_num)),
   (c10_observer_score_bounded [5, 5] 0).1⟩

/-- Concrete history for the C10 counterexample. -/
def exObs : List ℚ := [100, 100, 100]

/-- C10 counterexample: on a constant 100 W history with one recent jump
the score is 0.35/6 = 7/120 ≈ 0.0583, but the `cycling_risk` written to
the status is `round(…, 2)` = 0.06 — the written risk is the clamped
score rounded to two decimals, not the clamped score itself. -/
theorem c10_risk_rounding_counterexample :
    computeInstabilityScore exObs 1 = 7/120 ∧
    cyclingRisk exObs 1 = 3/50 ∧
    cyclingRisk exObs 1 ≠
      min 1 (max 0 (computeInstabilityScore exObs 1)) := by
  have hlen : exObs.length = 3 := by decide
  have hmean : meanQ exObs = 100 := by norm_num [meanQ, exObs]
  have hw0 : obsWindow exObs 3 0 = [100] := by decide
  have hw1 : obsWindow exObs 3 1 = [100, 100] := by decide
  have hw2 : obsWindow exObs 3 2 = [100, 100, 100] := by decide
  have hs0 : sampleStd [(100 : ℚ)] = none := by simp [sampleStd]
  have hs1 : sampleStd [(100 : ℚ), 100] = some 0 :=
    sampleStd_const _ 100 (by decide) (by norm_num)
  have hs2 : sampleStd [(100 : ℚ), 100, 100] = some 0 :=
    sampleStd_const _ 100 (by decide) (by norm_num)
  have hroll : obsRollingStd exObs 3 = [none, some 0, some 0] := by
    rw [obsRollingStd, hlen, show List.range 3 = [0, 1, 2] from by decide]
    simp [hw0, hw1, hw2, hs0, hs1, hs2]
  have hmsn : meanSkipNa [none, some 0, some 0] = 0 := by
    simp [meanSkipNa]
  have hmax : maxQ exObs = 100 := by decide
  have hmin : minQ exObs = 100 := by decide
  have hscore : computeInstabilityScore exObs 1 = 7/120 := by
    rw [computeInstabilityScore, if_neg (by rw [hlen]; omega),
      if_neg (by rw [hmean]; norm_num),
      show min 10 exObs.length = 3 from by rw [hlen]; omega,
      hroll, hmsn, hmean, hmax, hmin]
    norm_num [min_def, max_def]
  have hclamp : min 1 (max 0 ((7 : ℝ)/120)) = 7/120 := by
    norm_num [min_def, max_def]
  have hfl : ⌊(35/6 : ℝ)⌋ = 5 := by
    rw [Int.floor_eq_iff]
    constructor
    · norm_num
    · norm_num
  have hfrac : Int.fract (35/6 : ℝ) = 5/6 := by
    rw [Int.fract, hfl]
    norm_num
  have hround : roundHalfEven ((7 : ℝ)/120 * 100) = 6 := by
    rw [show ((7 : ℝ)/120 * 100) = 35/6 by norm_num, roundHalfEven, hfrac, hfl]
    norm_num
  have hrisk : cyclingRisk exObs 1 = 3/50 := by
    rw [cyclingRisk, hscore, hclamp, round2, hround]
    norm_num
  refine ⟨hscore, hrisk, ?_⟩
  rw [hrisk, hscore, hclamp]
  norm_num

/-! ## Analyzer._discover_stable_threshold (src/climatiq/core/analyzer.py)

`_discover_stable_threshold` (lines 189-245) bins the historical rows by
power with `pd.cut(df["power"], bins=20)`, keeps bins with at least 30
samples, scores each bin by `1 / (1 + cycle_rate)`, and returns the
minimum bin midpoint among bins with stability > 0.8 — falling back to
the midpoint at the largest stability improvement, and to 400.0 when no
bin qualifies.  A row is (power, state_change). -/

abbrev HRow := ℚ × ℚ

def powMin (rows : List HRow) : ℚ := minQ (rows.map Prod.fst)

def powMax (rows : List HRow) : ℚ := maxQ (rows.map Prod.fst)

/-- The 21 bin edges of `pd.cut(x, bins=20)`: a linspace over
`[min, max]` whose leftmost edge is widened by 0.1% of the range
(`bins[0] -= (mx - mn) * 0.001`); for a degenerate range pandas instead
widens both ends by 0.1% of the magnitude (or by 0.001 when zero). -/
def cutEdge (mn mx : ℚ) (i : ℕ) : ℚ :=
  if mn = mx then
    (mn - (if mn = 0 then 1/1000 else |mn| / 1000)) +
      ((mx + (if mx = 0 then 1/1000 else |mx| / 1000)) -
        (mn - (if mn = 0 then 1/1000 else |mn| / 1000))) * i / 20
  else if i = 0 then mn - (mx - mn) / 1000
  else mn + (mx - mn) * i / 20

/-- `pd.cut` bin assignment: the index `i < 20` with
`edge i < p ≤ edge (i+1)` (intervals are right-closed); 20 models the NaN
bin of a value outside every interval. -/
def binIdx (mn mx p : ℚ) : ℕ :=
  ((List.range 20).filter
    (fun i => cutEdge mn mx i < p && p ≤ cutEdge mn mx (i + 1))).headD 20

/-- The rows grouped into bin `i` (`df.groupby("power_bin",
observed=True)`; bins with no member never reach the 30-sample cut). -/
def binMembers (rows : List HRow) (i : ℕ) : List HRow :=
  rows.filter (fun r => binIdx (powMin rows) (powMax rows) r.1 = i)

structure StabEntry where
  lo : ℚ
  hi : ℚ
  power : ℚ
  stability : ℚ
  cycleRate : ℚ
  samples : ℕ
  deriving DecidableEq

/-- One row of `stability_by_power` (lines 197-222) for bin `i`; `none`
when the bin has fewer than 30 samples. -/
def stabEntry (rows : List HRow) (i : ℕ) : Option StabEntry :=
  let group := binMembers rows i
  if group.length < 30 then none
  else
    let cycles := (group.map Prod.snd).sum
    let hours : ℚ := (group.length : ℚ) / 60
    let rate := if hours > 0 then cycles / hours else 0
    let lo := cutEdge (powMin rows) (powMax rows) i
    let hi := cutEdge (powMin rows) (powMax rows) (i + 1)
    some ⟨lo, hi, (lo + hi) / 2, 1 / (1 + rate), rate, group.length⟩

/-- `stability_by_power`, in ascending bin order (the groupby iterates the
interval categories in order, and the later `sort_values("power")` is a
no-op on it). -/
def stabilityByPower (rows : List HRow) : List StabEntry :=
  (List.range 20).filterMap (stabEntry rows)

/-- `stability_df[stability_df["stability"] > 0.8]` (line 230). -/
def stableEntries (rows : List HRow) : List StabEntry :=
  (stabilityByPower rows).filter (fun e => decide ((4 : ℚ)/5 < e.stability))

/-- Embeds `Analyzer._discover_stable_threshold` (lines 189-245): the
minimum midpoint among stable bins; otherwise the midpoint at the first
largest consecutive stability improvement (pandas `idxmax`; with a single
bin the diff column is all-NaN and the median — that bin's midpoint — is
returned); 400.0 when no bin has 30 samples. -/
def discoverStableThreshold (rows : List HRow) : ℚ :=
  let entries := stabilityByPower rows
  if entries.isEmpty then 400
  else
    let stable := stableEntries rows
    if stable.isEmpty = false then minQ (stable.map StabEntry.power)
    else
      match entries with
      | [] => 400
      | [e] => e.power
      | e0 :: _ =>
        let diffs := (entries.zip (entries.drop 1)).map
          (fun pq => pq.2.stability - pq.1.stability)
        let j := diffs.findIdx (fun d => d = maxQ diffs)
        ((entries.drop (j + 1)).headD e0).power

/-- The maximum power observed among the rows lying in a region classified
stable — the quantity the claim bounds `min_stable_power` by. -/
def maxObservedStable (rows : List HRow) : ℚ :=
  maxQ ((rows.filter (fun r =>
    (stableEntries rows).any (fun e => e.lo < r.1 && r.1 ≤ e.hi))).map
      Prod.fst)

/-! ### Ordering facts about the bin edges -/

theorem cutEdge_strictMono (mn mx : ℚ) (hle : mn ≤ mx) :
    ∀ i j : ℕ, i < j → j ≤ 20 → cutEdge mn mx i < cutEdge mn mx j := by
  intro i j hij hj20
  by_cases hdeg : mn = mx
  · simp only [cutEdge, if_pos hdeg]
    have hd : (0 : ℚ) < (if mn = 0 then 1/1000 else |mn| / 1000) := by
      split
    
      · norm_num
      · rename_i hmn0
        have := abs_pos.2 hmn0
        positivity
    have hd2 : (0 : ℚ) < (if mx = 0 then 1/1000 else |mx| / 1000) := by
      split
      · norm_num
      · rename_i hmx0
        have := abs_pos.2 hmx0
        positivity
    have hwidth : (0 : ℚ) <
        (mx + (if mx = 0 then 1/1000 else |mx| / 1000)) -
          (mn - (if mn = 0 then 1/1000 else |mn| / 1000)) := by
      rw [← hdeg] at hd2 ⊢
      linarith
    have hcast : (i : ℚ) < (j : ℚ) := by exact_mod_cast hij
    have h20 : (0 : ℚ) < 20 := by norm_num
    apply add_lt_add_left
    rw [div_lt_div_iff₀ h20 h20]
    nlinarith
  · have hlt : mn < mx := lt_of_le_of_ne hle hdeg
    simp only [cutEdge, if_neg hdeg]
    rcases Nat.eq_zero_or_pos i with rfl | hipos
    · rw [if_pos rfl, if_neg (by omega)]
      have hcast : (1 : ℚ) ≤ (j : ℚ) := by exact_mod_cast hij
      have : mn - (mx - mn) / 1000 < mn := by
        have : (0 : ℚ) < (mx - mn) / 1000 :=
          div_pos (sub_pos.2 hlt) (by norm_num)
        linarith
      have h2 : mn ≤ mn + (mx - mn) * j / 20 := by
        have : (0 : ℚ) ≤ (mx - mn) * j / 20 :=
          div_nonneg (mul_nonneg (le_of_lt (sub_pos.2 hlt)) (Nat.cast_nonneg j))
            (by norm_num)
        linarith
      linarith
    · rw [if_neg (by omega), if_neg (by omega)]
      apply add_lt_add_left
      have hcast : (i : ℚ) < (j : ℚ) := by exact_mod_cast hij
      have hpos : (0 : ℚ) < mx - mn := by linarith
      rw [div_lt_div_iff₀ (by norm_num) (by norm_num)]
      nlinarith

theorem cutEdge_twenty (mn mx : ℚ) (hne : mn ≠ mx) : cutEdge mn mx 20 = mx := by
  rw [cutEdge, if_neg hne, if_neg (by omega)]
  push_cast
  ring_nf

theorem cutEdge_deg_ten (mn : ℚ) : cutEdge mn mn 10 = mn := by
  rw [cutEdge, if_pos rfl]
  push_cast
  ring_nf

theorem filter_range_eq_singleton (n i : ℕ) (hi : i < n) :
    (List.range n).filter (fun j => decide (j = i)) = [i] := by
  induction n with
  | zero => omega
  | succ m ih =>
    rw [List.range_succ, List.filter_append]
    rcases Nat.lt_or_ge i m with hlt | hge
    · rw [ih hlt]
      have hd : decide (m = i) = false := decide_eq_false (by omega)
      simp [hd]
    · have hmi : i = m := by omega
      subst hmi
      have hnil : (List.range i).filter (fun j => decide (j = i)) = [] := by
        rw [List.filter_eq_nil_iff]
        intro a ha
        have := List.mem_range.1 ha
        simp only [decide_eq_true_eq]
        omega
      simp [hnil]

/-- A value strictly inside bin `i` is assigned bin `i`. -/
theorem binIdx_eq (mn mx p : ℚ) (hle : mn ≤ mx) (i : ℕ) (hi : i < 20)
    (h1 : cutEdge mn mx i < p) (h2 : p ≤ cutEdge mn mx (i + 1)) :
    binIdx mn mx p = i := by
  rw [binIdx]
  have hcong : ∀ j ∈ List.range 20,
      (decide (cutEdge mn mx j < p) && decide (p ≤ cutEdge mn mx (j + 1))) =
        decide (j = i) := by
    intro j hj
    have hj20 := List.mem_range.1 hj
    by_cases hji : j = i
    · subst hji
      simp [h1, h2]
    · rcases Nat.lt_or_ge j i with hlt | hge
      · have hord : cutEdge mn mx (j + 1) ≤ cutEdge mn mx i := by
          rcases Nat.eq_or_lt_of_le (Nat.succ_le_of_lt hlt) with he | hlt2
          · have he2 : j + 1 = i := he
            rw [he2]
          · exact le_of_lt (cutEdge_strictMono mn mx hle (j + 1) i hlt2
              (by omega))
        have hnp : ¬ p ≤ cutEdge mn mx (j + 1) := by linarith
        simp [hnp, hji]
      · have hij2 : i < j := by omega
        have hord : cutEdge mn mx (i + 1) ≤ cutEdge mn mx j := by
          rcases Nat.eq_or_lt_of_le (Nat.succ_le_of_lt hij2) with he | hlt2
          · have he2 : i + 1 = j := he
            rw [he2]
          · exact le_of_lt (cutEdge_strictMono mn mx hle (i + 1) j hlt2
              (le_of_lt hj20))
        have hnl : ¬ cutEdge mn mx j < p := by linarith
        simp [hnl, hji]
  rw [List.filter_congr hcong, filter_range_eq_singleton 20 i hi]
  rfl

/-- A value assigned a real bin satisfies that bin's bounds. -/
theorem binIdx_spec (mn mx p : ℚ) (i : ℕ) (hbin : binIdx mn mx p = i)
    (hi : i < 20) :
    cutEdge mn mx i < p ∧ p ≤ cutEdge mn mx (i + 1) := by
  rw [binIdx] at hbin
  rcases hf : (List.range 20).filter
      (fun j => decide (cutEdge mn mx j < p) &&
        decide (p ≤ cutEdge mn mx (j + 1))) with _ | ⟨a, t⟩
  · rw [hf] at hbin
    simp at hbin
    omega
  · rw [hf] at hbin
    simp only [List.headD_cons] at hbin
    subst hbin
    have hmem := List.mem_filter.1 (show a ∈ (List.range 20).filter
      (fun j => decide (cutEdge mn mx j < p) &&
        decide (p ≤ cutEdge mn mx (j + 1))) by
      rw [hf]
      exact List.mem_cons_self a t)
    have h2 := hmem.2
    simp only [Bool.and_eq_true, decide_eq_true_eq] at h2
    exact h2

theorem foldr_max_mem (a : ℚ) (l : List ℚ) :
    l.foldr max a = a ∨ l.foldr max a ∈ l := by
  induction l with
  | nil => exact Or.inl rfl
  | cons x xs ih =>
    rw [List.foldr_cons]
    rcases max_choice x (xs.foldr max a) with h | h
    · rw [h]
      exact Or.inr (List.mem_cons_self _ _)
    · rw [h]
      rcases ih with h2 | h2
      · exact Or.inl h2
      · exact Or.inr (List.mem_cons_of_mem _ h2)

theorem foldr_min_mem (a : ℚ) (l : List ℚ) :
    l.foldr min a = a ∨ l.foldr min a ∈ l := by
  induction l with
  | nil => exact Or.inl rfl
  | cons x xs ih =>
    rw [List.foldr_cons]
    rcases min_choice x (xs.foldr min a) with h | h
    · rw [h]
      exact Or.inr (List.mem_cons_self _ _)
    · rw [h]
      rcases ih with h2 | h2
      · exact Or.inl h2
      · exact Or.inr (List.mem_cons_of_mem _ h2)

theorem maxQ_mem (l : List ℚ) (hne : l ≠ []) : maxQ l ∈ l := by
  rcases l with _ | ⟨a, as⟩
  · exact absurd rfl hne
  · rw [maxQ, List.headD_cons]
    rcases foldr_max_mem a (a :: as) with h | h
    · rw [h]
      exact List.mem_cons_self _ _
    · exact h

theorem minQ_mem (l : List ℚ) (hne : l ≠ []) : minQ l ∈ l := by
  rcases l with _ | ⟨a, as⟩
  · exact absurd rfl hne
  · rw [minQ, List.headD_cons]
    rcases foldr_min_mem a (a :: as) with h | h
    · rw [h]
      exact List.mem_cons_self _ _
    · exact h

theorem le_foldr_max (a : ℚ) (l : List ℚ) : ∀ x ∈ l, x ≤ l.foldr max a := by
  induction l with
  | nil => intro x hx; simp at hx
  | cons y ys ih =>
    intro x hx
    rw [List.foldr_cons]
    rcases List.mem_cons.1 hx with rfl | h2
    · exact le_max_left _ _
    · exact le_trans (ih x h2) (le_max_right _ _)

theorem foldr_min_le (a : ℚ) (l : List ℚ) : ∀ x ∈ l, l.foldr min a ≤ x := by
  induction l with
  | nil => intro x hx; simp at hx
  | cons y ys ih =>
    intro x hx
    rw [List.foldr_cons]
    rcases List.mem_cons.1 hx with rfl | h2
    · exact min_le_left _ _
    · exact le_trans (min_le_right _ _) (ih x h2)

theorem le_maxQ (l : List ℚ) (x : ℚ) (hx : x ∈ l) : x ≤ maxQ l := by
  rcases l with _ | ⟨a, as⟩
  · simp at hx
  · rw [maxQ, List.headD_cons]
    exact le_foldr_max a (a :: as) x hx

theorem minQ_le (l : List ℚ) (x : ℚ) (hx : x ∈ l) : minQ l ≤ x := by
  rcases l with _ | ⟨a, as⟩
  · simp at hx
  · rw [minQ, List.headD_cons]
    exact foldr_min_le a (a :: as) x hx

/-! ## Theorems for claim C2 -/

/-- Concrete dataset for the C2 counterexample: 31 samples at 100-110 W
with no state changes (a stable low bin), 30 samples at 2100 W cycling on
every sample (an unstable top bin). -/
def exC2 : List HRow :=
  List.replicate 30 (110, 0) ++ [(100, 0)] ++ List.replicate 30 (2100, 1)

def exE0 : StabEntry := ⟨98, 200, 149, 1, 0, 31⟩

def exE19 : StabEntry := ⟨2000, 2100, 2050, 1/61, 60, 30⟩

set_option maxRecDepth 10000 in
/-- Evaluation of `stability_by_power` on `exC2`: one stable low bin and
one unstable top bin. -/
theorem exC2_stabilityByPower : stabilityByPower exC2 = [exE0, exE19] := by
  have hmn : powMin exC2 = 100 := by decide
  have hmx : powMax exC2 = 2100 := by decide
  have hb110 : binIdx 100 2100 110 = 0 :=
    binIdx_eq 100 2100 110 (by norm_num) 0 (by norm_num)
      (by norm_num [cutEdge]) (by norm_num [cutEdge])
  have hb100 : binIdx 100 2100 100 = 0 :=
    binIdx_eq 100 2100 100 (by norm_num) 0 (by norm_num)
      (by norm_num [cutEdge]) (by norm_num [cutEdge])
  have hb2100 : binIdx 100 2100 2100 = 19 :=
    binIdx_eq 100 2100 2100 (by norm_num) 19 (by norm_num)
      (by norm_num [cutEdge]) (by norm_num [cutEdge])
  have hmem : ∀ r ∈ exC2, r.1 = 110 ∨ r.1 = 100 ∨ r.1 = 2100 := by
    intro r hr
    rw [exC2] at hr
    rcases List.mem_append.1 hr with h12 | h3
    · rcases List.mem_append.1 h12 with h1 | h2
      · exact Or.inl (by rw [List.eq_of_mem_replicate h1])
      · exact Or.inr (Or.inl (by rw [List.mem_singleton.1 h2]))
    · exact Or.inr (Or.inr (by rw [List.eq_of_mem_replicate h3]))
  have hmembers0 : binMembers exC2 0 =
      List.replicate 30 ((110 : ℚ), (0 : ℚ)) ++ [((100 : ℚ), (0 : ℚ))] := by
    rw [binMembers, hmn, hmx, exC2, List.filter_append, List.filter_append,
      List.filter_replicate, List.filter_replicate]
    simp [hb110, hb100, hb2100]
  have hmembers19 : binMembers exC2 19 =
      List.replicate 30 ((2100 : ℚ), (1 : ℚ)) := by
    rw [binMembers, hmn, hmx, exC2, List.filter_append, List.filter_append,
      List.filter_replicate, List.filter_replicate]
    simp [hb110, hb100, hb2100]
  have hentry0 : stabEntry exC2 0 = some exE0 := by
    rw [stabEntry, hmembers0, if_neg (by simp)]
    rw [hmn, hmx]
    norm_num [exE0, List.map_append, List.map_replicate, List.sum_append,
      List.sum_replicate, List.length_append, List.length_replicate,
      smul_eq_mul, cutEdge, StabEntry.mk.injEq]
  have hentry19 : stabEntry exC2 19 = some exE19 := by
    rw [stabEntry, hmembers19, if_neg (by simp)]
    rw [hmn, hmx]
    norm_num [exE19, List.map_replicate, List.sum_replicate,
      List.length_replicate, smul_eq_mul, cutEdge, StabEntry.mk.injEq]
  have hnone : ∀ i : ℕ, ¬ i = 0 → ¬ i = 19 → stabEntry exC2 i = none := by
    intro i h0 h19
    have hmemi : binMembers exC2 i = [] := by
      rw [binMembers, hmn, hmx, List.filter_eq_nil_iff]
      intro r hr
      simp only [decide_eq_true_eq]
      rcases hmem r hr with h | h | h
      · rw [h, hb110]
        omega
      · rw [h, hb100]
        omega
      · rw [h, hb2100]
        omega
    rw [stabEntry, hmemi, if_pos (by simp)]
  rw [stabilityByPower,
    show List.range 20 =
      [0, 1, 2, 3, 4, 5, 6, 7, 8, 9, 10, 11, 12, 13, 14, 15, 16, 17, 18, 19]
      from by decide]
  simp [List.filterMap_cons, hentry0, hentry19, hnone 1 (by omega) (by omega), hnone 2 (by omega) (by omega), hnone 3 (by omega) (by omega), hnone 4 (by omega) (by omega), hnone 5 (by omega) (by omega), hnone 6 (by omega) (by omega), hnone 7 (by omega) (by omega), hnone 8 (by omega) (by omega), hnone 9 (by omega) (by omega), hnone 10 (by omega) (by omega), hnone 11 (by omega) (by omega), hnone 12 (by omega) (by omega), hnone 13 (by omega) (by omega), hnone 14 (by omega) (by omega), hnone 15 (by omega) (by omega), hnone 16 (by omega) (by omega), hnone 17 (by omega) (by omega), hnone 18 (by omega) (by omega)]

/-- Evaluation of the stable regions on `exC2`: only the low bin. -/
theorem exC2_stableEntries : stableEntries exC2 = [exE0] := by
  rw [stableEntries, exC2_stabilityByPower]
  norm_num [List.filter_cons, List.filter_nil, exE0, exE19]

set_option maxRecDepth 10000 in
/-- C2 counterexample: on `exC2` the only stable bin is (98, 200] whose
members are all at 100-110 W, yet `_discover_stable_threshold` returns the
bin *midpoint* 149 W — strictly greater than the maximum power observed in
any region classified stable (110 W).  The claimed bound
`min_stable_power ≤ max observed stable power` fails. -/
theorem c2_threshold_counterexample :
    discoverStableThreshold exC2 = 149 ∧
    maxObservedStable exC2 = 110 ∧
    ¬ discoverStableThreshold exC2 ≤ maxObservedStable exC2 := by
  have hdiscover : discoverStableThreshold exC2 = 149 := by
    simp only [discoverStableThreshold, exC2_stabilityByPower,
      exC2_stableEntries]
    norm_num [minQ, exE0]
  have hmaxobs : maxObservedStable exC2 = 110 := by
    rw [maxObservedStable, exC2_stableEntries]
    have hfil : exC2.filter (fun r => ([exE0] : List StabEntry).any
        (fun e => decide (e.lo < r.1) && decide (r.1 ≤ e.hi))) =
        List.replicate 30 ((110 : ℚ), (0 : ℚ)) ++ [((100 : ℚ), (0 : ℚ))] := by
      rw [exC2, List.filter_append, List.filter_append,
        List.filter_replicate, List.filter_replicate]
      norm_num [exE0, List.any_cons, List.any_nil]
    rw [hfil]
    decide
  refine ⟨hdiscover, hmaxobs, ?_⟩
  rw [hdiscover, hmaxobs]
  norm_num

theorem headD_mem_of_ne_nil (l : List StabEntry) (d : StabEntry)
    (h : l ≠ []) : l.headD d ∈ l := by
  cases l with
  | nil => exact absurd rfl h
  | cons a t => exact List.mem_cons_self _ _

theorem stabEntry_fields (rows : List HRow) (i : ℕ) (e : StabEntry)
    (h : stabEntry rows i = some e) :
    30 ≤ (binMembers rows i).length ∧
    e.lo = cutEdge (powMin rows) (powMax rows) i ∧
    e.hi = cutEdge (powMin rows) (powMax rows) (i + 1) ∧
    e.power = (e.lo + e.hi) / 2 := by
  rw [stabEntry] at h
  split at h
  · cases h
  · rename_i hlen
    rw [Option.some.injEq] at h
    subst h
    exact ⟨by omega, rfl, rfl, rfl⟩

theorem mem_stabilityByPower (rows : List HRow) (e : StabEntry)
    (h : e ∈ stabilityByPower rows) :
    ∃ i, i < 20 ∧ stabEntry rows i = some e := by
  rw [stabilityByPower] at h
  rcases List.mem_filterMap.1 h with ⟨i, hi, he⟩
  exact ⟨i, List.mem_range.1 hi, he⟩

theorem powMin_le_powMax (rows : List HRow) (hne : rows ≠ []) :
    powMin rows ≤ powMax rows := by
  have hne2 : rows.map Prod.fst ≠ [] := by
    simp [hne]
  exact minQ_le _ _ (maxQ_mem _ hne2)

/-- Every stability entry's midpoint is strictly below the dataset's
maximum power. -/
theorem entry_power_lt_powMax (rows : List HRow) (hne : rows ≠ [])
    (e : StabEntry) (he : e ∈ stabilityByPower rows) :
    e.power < powMax rows := by
  obtain ⟨i, hi20, hse⟩ := mem_stabilityByPower rows e he
  obtain ⟨hlen, hlo, hhi, hpw⟩ := stabEntry_fields rows i e hse
  have hle := powMin_le_powMax rows hne
  have hmemne : binMembers rows i ≠ [] := by
    intro hc
    rw [hc] at hlen
    simp at hlen
  obtain ⟨r, hr⟩ := List.exists_mem_of_ne_nil _ hmemne
  have hrf := List.mem_filter.1 hr
  have hbin : binIdx (powMin rows) (powMax rows) r.1 = i := by
    simpa using hrf.2
  obtain ⟨hgt, _⟩ := binIdx_spec _ _ _ i hbin hi20
  have hrmax : r.1 ≤ powMax rows :=
    le_maxQ _ _ (List.mem_map_of_mem Prod.fst hrf.1)
  have hlohi : e.lo < e.hi := by
    rw [hlo, hhi]
    exact cutEdge_strictMono _ _ hle i (i + 1) (by omega) (by omega)
  have hplt : e.power < e.hi := by
    rw [hpw]
    linarith
  by_cases hdeg : powMin rows = powMax rows
  · have hten : cutEdge (powMin rows) (powMax rows) 10 = powMax rows := by
      conv_lhs => rw [← hdeg]
      rw [cutEdge_deg_ten]
      exact hdeg
    have hi10 : i < 10 := by
      by_contra hc
      push_neg at hc
      have hord : cutEdge (powMin rows) (powMax rows) 10 ≤
          cutEdge (powMin rows) (powMax rows) i := by
        rcases Nat.eq_or_lt_of_le hc with he10 | hlt10
        · rw [← he10]
        · exact le_of_lt (cutEdge_strictMono _ _ hle 10 i hlt10 (by omega))
      linarith
    have hhile : e.hi ≤ powMax rows := by
      have hord : cutEdge (powMin rows) (powMax rows) (i + 1) ≤
          cutEdge (powMin rows) (powMax rows) 10 := by
        rcases Nat.eq_or_lt_of_le (Nat.succ_le_of_lt hi10) with he10 | hlt10
        · have he2 : i + 1 = 10 := he10
          rw [he2]
        · exact le_of_lt (cutEdge_strictMono _ _ hle (i + 1) 10 hlt10
            (by omega))
      rw [hhi]
      linarith
    linarith
  · have h20 : cutEdge (powMin rows) (powMax rows) 20 = powMax rows :=
      cutEdge_twenty _ _ hdeg
    have hhile : e.hi ≤ powMax rows := by
      have hord : cutEdge (powMin rows) (powMax rows) (i + 1) ≤
          cutEdge (powMin rows) (powMax rows) 20 := by
        rcases Nat.eq_or_lt_of_le (show i + 1 ≤ 20 by omega) with he20 | hlt20
        · rw [he20]
        · exact le_of_lt (cutEdge_strictMono _ _ hle (i + 1) 20 hlt20
            (by omega))
      rw [hhi]
      linarith
    linarith

/-- Whenever `stability_by_power` is nonempty, the discovered threshold is
one of its bin midpoints. -/
theorem discover_mem_powers (rows : List HRow)
    (hne : (stabilityByPower rows).isEmpty = false) :
    discoverStableThreshold rows ∈
      (stabilityByPower rows).map StabEntry.power := by
  simp only [discoverStableThreshold]
  rw [if_neg (by simp [hne])]
  by_cases hst : (stableEntries rows).isEmpty = false
  · rw [if_pos hst]
    have hstne : stableEntries rows ≠ [] := by
      intro hc
      rw [hc] at hst
      simp at hst
    have hmapne : (stableEntries rows).map StabEntry.power ≠ [] := by
      simp [hstne]
    rcases List.mem_map.1 (minQ_mem _ hmapne) with ⟨e, he, heq⟩
    rw [← heq]
    exact List.mem_map_of_mem _ (List.mem_of_mem_filter he)
  · rw [if_neg hst]
    rcases hent : stabilityByPower rows with _ | ⟨e0, rest⟩
    · rw [hent] at hne
      simp at hne
    · rcases rest with _ | ⟨e1, rest2⟩
      · simp
      · set entries := e0 :: e1 :: rest2 with hentries
        set diffs := (entries.zip (entries.drop 1)).map
          (fun pq => pq.2.stability - pq.1.stability) with hdiffs
        set j := diffs.findIdx (fun d => decide (d = maxQ diffs)) with hj
        have hdne : diffs ≠ [] := by
          rw [hdiffs, hentries]
          simp
        have hjlt : j < diffs.length := by
          rw [hj]
          exact List.findIdx_lt_length_of_exists
            ⟨maxQ diffs, maxQ_mem diffs hdne, by simp⟩
        have hdlen : diffs.length = entries.length - 1 := by
          rw [hdiffs]
          rw [List.length_map, List.length_zip, List.length_drop]
          omega
        have hjlen : j + 1 < entries.length := by
          rw [hdlen] at hjlt
          have : 2 ≤ entries.length := by
            rw [hentries]
            simp
          omega
        have hdropne : entries.drop (j + 1) ≠ [] := by
          intro hc
          have := List.length_drop (j + 1) entries
          rw [hc] at this
      
          simp at this
          omega
        exact List.mem_map_of_mem _
          (List.drop_subset _ _ (headD_mem_of_ne_nil _ e0 hdropne))

/-- C2 amended: when at least one bin is classified stable, the discovered
threshold is the minimum stable-bin midpoint, hence at most the *upper
edge* of some stable region's power range (it may exceed the maximum power
*observed* in stable regions, as the counterexample shows); and the
threshold never equals the dataset's maximum power unless every
30-sample bin is classified stable. -/
theorem c2_stable_threshold_amended (rows : List HRow) (hne : rows ≠ []) :
    ((stableEntries rows).isEmpty = false →
      ∃ e ∈ stableEntries rows,
        discoverStableThreshold rows = e.power ∧ e.power ≤ e.hi) ∧
    (discoverStableThreshold rows = powMax rows →
      ∀ e ∈ stabilityByPower rows, (4 : ℚ)/5 < e.stability) := by
  constructor
  · intro hst
    have hstne : stableEntries rows ≠ [] := by
      intro hc
      rw [hc] at hst
      simp at hst
    have hentne : (stabilityByPower rows).isEmpty = false := by
      rcases hent : stabilityByPower rows with _ | _
      · rw [stableEntries, hent] at hstne
        simp at hstne
      · simp [hent]
    have hres : discoverStableThreshold rows =
        minQ ((stableEntries rows).map StabEntry.power) := by
      simp only [discoverStableThreshold]
      rw [if_neg (by simp [hentne]), if_pos hst]
    have hmapne : (stableEntries rows).map StabEntry.power ≠ [] := by
      simp [hstne]
    rcases List.mem_map.1 (minQ_mem _ hmapne) with ⟨e, he, heq⟩
    refine ⟨e, he, by rw [hres, ← heq], ?_⟩
    have hee : e ∈ stabilityByPower rows := List.mem_of_mem_filter he
    obtain ⟨i, hi20, hse⟩ := mem_stabilityByPower rows e hee
    obtain ⟨_, hlo, hhi, hpw⟩ := stabEntry_fields rows i e hse
    have hlohi : e.lo < e.hi := by
      rw [hlo, hhi]
      exact cutEdge_strictMono _ _ (powMin_le_powMax rows hne) i (i + 1)
        (by omega) (by omega)
    rw [hpw]
    linarith
  · intro hmax e he
    have hentne : (stabilityByPower rows).isEmpty = false := by
      rcases hent : stabilityByPower rows with _ | _
      · rw [hent] at he
        simp at he
      · simp [hent]
    rcases List.mem_map.1 (discover_mem_powers rows hentne) with ⟨e2, he2, heq2⟩
    have hlt := entry_power_lt_powMax rows hne e2 he2
    rw [heq2, hmax] at hlt
    exact absurd hlt (lt_irrefl _)

theorem c2_stable_threshold_amended_witness :
    (∃ e ∈ stableEntries exC2,
      discoverStableThreshold exC2 = e.power ∧ e.power ≤ e.hi) ∧
    (∀ e ∈ stabilityByPower [((400 : ℚ), (0 : ℚ))],
      (4 : ℚ)/5 < e.stability) := by
  constructor
  · exact (c2_stable_threshold_amended exC2 (by rw [exC2]; simp)).1
      (by rw [exC2_stableEntries]; rfl)
  · have hsbp : stabilityByPower [((400 : ℚ), (0 : ℚ))] = [] := by
      rw [stabilityByPower, List.filterMap_eq_nil_iff]
      intro i _
      have hlen : (binMembers [((400 : ℚ), (0 : ℚ))] i).length < 30 := by
        have h1 : (binMembers [((400 : ℚ), (0 : ℚ))] i).length ≤
            ([((400 : ℚ), (0 : ℚ))] : List HRow).length := by
          rw [binMembers]
          exact List.length_filter_le _ _
        simp at h1
        omega
      simp only [stabEntry]
      rw [if_pos hlen]
    refine (c2_stable_threshold_amended [((400 : ℚ), (0 : ℚ))]
      (by simp)).2 ?_
    simp only [discoverStableThreshold, hsbp]
    norm_num [powMax, maxQ]

/-! ## C8 — `Analyzer.analyze` and `_discover_regions`
(src/climatiq/core/analyzer.py lines 44-335)

The analyzer object carries mutable state: the `StandardScaler` instance
`self._scaler` and `self._last_result`.  `sklearn` components are seeded
(`KMeans(n_clusters=..., random_state=42, n_init=10)`), so the clustering
is a deterministic function of the scaled feature matrix; it is modelled
here as an explicit function argument `km`.  `fit_transform` refits the
scaler from the data at hand before transforming, which is what makes the
result independent of the scaler state left by earlier runs. -/

/-- One sample of the `power_data` series: timestamp (minutes) and power
reading; `none` models NaN. -/
abbrev PRow := ℤ × Option ℚ

/-- The non-NaN powers of the series, in order (`power.dropna()`). -/
def presentPowers (powerData : List PRow) : List ℚ :=
  powerData.filterMap Prod.snd

/-- `check_data_sufficiency` (lines 63-88): `false` when the frame is
empty, has fewer than `MIN_DATAPOINTS = 1000` rows, or spans fewer than
`MIN_HOURS_FOR_ANALYSIS = 24` hours; the message strings are not
modelled. -/
def checkDataSufficiency (powerData : List PRow) : Bool :=
  match powerData with
  | [] => false
  | r0 :: _ =>
    if powerData.length < 1000 then false
    else decide
      (¬ ((((powerData.map Prod.fst).getLastD r0.1 - r0.1 : ℤ) : ℚ) / 60
        < 24))

/-- Ascending insertion into a sorted list. -/
def insertAsc (x : ℚ) : List ℚ → List ℚ
  | [] => [x]
  | y :: ys => if x ≤ y then x :: y :: ys else y :: insertAsc x ys

/-- Ascending sort of the values (pandas sorts before taking a
quantile). -/
def sortQ (l : List ℚ) : List ℚ := l.foldr insertAsc []

/-- `Series.quantile(q)` with the default linear interpolation: position
`h = (n-1)q` into the sorted values, interpolating between the two
neighbouring order statistics. -/
def quantileQ (l : List ℚ) (q : ℚ) : ℚ :=
  let s := sortQ l
  let h : ℚ := ((s.length : ℚ) - 1) * q
  let j : ℕ := (max 0 ⌊h⌋).toNat
  let lo := s.getD j 0
  let hi := s.getD (j + 1) lo
  lo + (h - (⌊h⌋ : ℚ)) * (hi - lo)

/-- The hysteresis thresholds of `_add_cycling_detection` (lines
158-167): `threshold_off = p10 + (p90 - p10) * 0.15`,
`threshold_on = p10 + (p90 - p10) * 0.25`; `none` models the NaN
thresholds obtained from an all-NaN power column (comparisons against NaN
are false, so the state machine then never transitions). -/
def cycThresholds (powerData : List PRow) : Option (ℚ × ℚ) :=
  match presentPowers powerData with
  | [] => none
  | l =>
    let p10 := quantileQ l (1/10)
    let p90 := quantileQ l (9/10)
    some (p10 + (p90 - p10) * (3/20), p10 + (p90 - p10) * (1/4))

/-- The `compressor_on` column (lines 169-182): hysteresis state machine
over the rows; a NaN row is skipped (`continue`), leaving that row at its
initialised `False` while the running state persists. -/
def compressorOn (thr : Option (ℚ × ℚ)) : Bool → List (Option ℚ) → List Bool
  | _, [] => []
  | st, none :: ps => false :: compressorOn thr st ps
  | st, some v :: ps =>
    let st2 :=
      match thr with
      | none => st
      | some (toff, ton) =>
        if st then (if v < toff then false else true)
        else (if v > ton then true else false)
    st2 :: compressorOn thr st2 ps

/-- Tail of the absolute first difference of the 0/1 states. -/
def stateChangesFrom : Bool → List Bool → List ℚ
  | _, [] => []
  | prev, b :: bs =>
    ((|boolToInt b - boolToInt prev| : ℤ) : ℚ) :: stateChangesFrom b bs

/-- `state_change` (line 185):
`compressor_on.astype(int).diff().abs().fillna(0)` — the leading NaN of
`diff` becomes 0. -/
def stateChanges : List Bool → List ℚ
  | [] => []
  | b :: bs => 0 :: stateChangesFrom b bs

/-- A dataframe row after `_add_cycling_detection`: timestamp, power,
`state_change`. -/
abbrev DRow := ℤ × Option ℚ × ℚ

/-- `_add_cycling_detection` (lines 156-187). -/
def addCyclingDetection (powerData : List PRow) : List DRow :=
  let sc := stateChanges
    (compressorOn (cycThresholds powerData) false (powerData.map Prod.snd))
  (powerData.zip sc).map (fun rs => (rs.1.1, rs.1.2, rs.2))

/-- The `(power, state_change)` rows that `pd.cut`/`groupby` see in
`_discover_stable_threshold`: NaN powers fall into the NaN bin and are
dropped by the `groupby`. -/
def hrowsOf (df : List DRow) : List HRow :=
  df.filterMap (fun r => r.2.1.map (fun p => (p, r.2.2)))

/-- The fitted parameters of `self._scaler` (`StandardScaler`):
per-column mean and (biased) variance. -/
structure ScalerParams where
  means : List ℚ
  vars : List ℚ
  deriving DecidableEq

/-- `StandardScaler.fit` on a feature matrix of width `d`. -/
def scalerFit (m : List (List ℚ)) (d : ℕ) : ScalerParams :=
  { means := (List.range d).map (fun j => meanQ (m.map (fun r => r.getD j 0)))
    vars := (List.range d).map (fun j =>
      meanQ ((m.map (fun r => r.getD j 0)).map
        (fun x => (x - meanQ (m.map (fun r => r.getD j 0))) ^ 2))) }

/-- `StandardScaler.transform` of one row: `(x - mean) / sqrt var` per
column; a zero-variance column is scaled by 1 instead
(`_handle_zeros_in_scale`). -/
noncomputable def scalerTransform (p : ScalerParams) (d : ℕ) (r : List ℚ) :
    List ℝ :=
  (List.range d).map (fun j =>
    (((r.getD j 0 : ℚ) : ℝ) - ((p.means.getD j 0 : ℚ) : ℝ)) /
      (if p.vars.getD j 0 = 0 then (1 : ℝ)
       else Real.sqrt ((p.vars.getD j 0 : ℚ) : ℝ)))

/-- `reindex(..., method="nearest")` of the outdoor series at time `t`:
the value whose timestamp is closest (ties keep the earlier entry). -/
def nearestVal (series : List (ℤ × ℚ)) (t : ℤ) : ℚ :=
  match series with
  | [] => 0
  | s0 :: rest =>
    (rest.foldl (fun best e => if |e.1 - t| < |best.1 - t| then e else best)
      s0).2

/-- `index.hour` for a timestamp in minutes. -/
def hourOf (t : ℤ) : ℚ := ((t.fdiv 60) % 24 : ℤ)

/-- A feature row of `_discover_regions` after `dropna`: the clustering
features (power [, outdoor temperature], hour) with the row's
`is_cycling` flag (`state_change > 0`). -/
structure FeatRow where
  power : ℚ
  outdoor : Option ℚ
  hour : ℚ
  isCycling : Bool
  deriving DecidableEq

/-- The feature rows (lines 253-267, 283): rows with NaN power are
dropped; the outdoor feature is added only when an outdoor series with at
least one point was given. -/
def featRows (df : List DRow) (ot : Option (List (ℤ × ℚ))) : List FeatRow :=
  df.filterMap (fun r =>
    r.2.1.map (fun p =>
      { power := p
        outdoor := match ot with
          | some (s0 :: rest) => some (nearestVal (s0 :: rest) r.1)
          | _ => none
        hour := hourOf r.1
        isCycling := decide (r.2.2 > 0) }))

/-- The feature vector handed to the scaler, in the column order
`["power", "outdoor_temp", "hour"]` built at lines 254-264. -/
def fvec (r : FeatRow) : List ℚ := r.power :: (r.outdoor.toList ++ [r.hour])

/-- A discovered `OperatingRegion` (lines 20-29); the `conditions` dict
(average power and hour histogram) is diagnostic metadata and not
modelled. -/
structure OperatingRegion where
  name : String
  powerLo : ℚ
  powerHi : ℚ
  stability : ℚ
  avgCycleRate : ℚ
  sampleCount : ℕ
  deriving DecidableEq

/-- The region name (lines 303-317). -/
def regionName (avgPower stability : ℚ) : String :=
  (if avgPower < 300 then "Niedriglast (instabil)"
   else if avgPower < 600 then "Teillast"
   else if avgPower < 1200 then "Mittellast"
   else "Volllast") ++
  (if stability > 4/5 then " - Stabil ✓"
   else if stability < 1/2 then " - Instabil ⚠"
   else "")

/-- One cluster's region (lines 286-330): `none` when the cluster has
fewer than 30 members. -/
def clusterRegion (labelled : List (FeatRow × ℕ)) (cid : ℕ) :
    Option OperatingRegion :=
  let cd := (labelled.filter (fun rl => rl.2 = cid)).map Prod.fst
  if cd.length < 30 then none
  else
    let ncyc : ℕ := (cd.filter (fun r => r.isCycling)).length
    let stability : ℚ := 1 - (ncyc : ℚ) / (cd.length : ℚ)
    let hours : ℚ := (cd.length : ℚ) / 60
    let cycleRate : ℚ := if hours > 0 then (ncyc : ℚ) / hours else 0
    some
      { name := regionName (meanQ (cd.map FeatRow.power)) stability
        powerLo := minQ (cd.map FeatRow.power)
        powerHi := maxQ (cd.map FeatRow.power)
        stability := stability
        avgCycleRate := cycleRate
        sampleCount := cd.length }

/-- Stable ascending insertion by a rational key. -/
def insertByKeyAsc {α : Type} (key : α → ℚ) (x : α) : List α → List α
  | [] => [x]
  | y :: ys =>
    if key x ≤ key y then x :: y :: ys else y :: insertByKeyAsc key x ys

/-- Python's stable `list.sort(key=...)` ascending. -/
def sortByKeyAsc {α : Type} (key : α → ℚ) (l : List α) : List α :=
  l.foldr (insertByKeyAsc key) []

/-- `_discover_regions` (lines 247-335), threading the scaler state:
below 100 complete feature rows it returns no regions without touching
the scaler; otherwise `fit_transform` refits the scaler from this data,
`KMeans` — the function argument `km` — labels the scaled rows, clusters
of at least 30 rows become regions, sorted by the lower end of their
power range. -/
noncomputable def discoverRegions (km : ℕ → List (List ℝ) → List ℕ)
    (df : List DRow) (ot : Option (List (ℤ × ℚ))) (scaler : ScalerParams) :
    ScalerParams × List OperatingRegion :=
  let rows := featRows df ot
  if rows.length < 100 then (scaler, [])
  else
    let d : ℕ := match ot with | some (_ :: _) => 3 | _ => 2
    let m := rows.map fvec
    let fitted := scalerFit m d
    let x := m.map (scalerTransform fitted d)
    let n := max 2 (min 5 (rows.length / 200))
    let labelled := rows.zip (km n x)
    (fitted,
      sortByKeyAsc OperatingRegion.powerLo
        ((List.range n).filterMap (clusterRegion labelled)))

/-- `AnalysisResult` (lines 32-41); the wall-clock `analysis_timestamp`
and the formatted `recommendation` string are reporting metadata and not
modelled. -/
structure AnalysisResultM where
  minStablePower : Option ℚ
  regions : List OperatingRegion
  dataQualityScore : ℝ
  sufficientData : Bool

/-- The analyzer's mutable state: the scaler instance and
`self._last_result`. -/
structure AnalyzerState where
  scaler : ScalerParams
  lastResult : Option AnalysisResultM

open Classical in
/-- `_calculate_data_quality` (lines 138-154): starts at 1.0, subtracts
half the missing ratio, 0.3 when the sample std of the powers is below 10
(a NaN std — fewer than two readings — never penalises), 0.2 when the
observed range leaves `[0, 10000]`, clamped to `[0, 1]`. -/
noncomputable def calculateDataQuality (powerData : List PRow) : ℝ :=
  let l := presentPowers powerData
  let missing : ℚ :=
    ((powerData.length - l.length : ℕ) : ℚ) / (powerData.length : ℚ)
  let s1 : ℝ := 1 - (missing : ℝ) * (1/2)
  let s2 : ℝ :=
    if ∃ sd, sampleStd l = some sd ∧ sd < 10 then s1 - 3/10 else s1
  let s3 : ℝ :=
    if l ≠ [] ∧ (minQ l < 0 ∨ 10000 < maxQ l) then s2 - 1/5 else s2
  max 0 (min 1 s3)

/-- `Analyzer.analyze` (lines 90-136): on insufficient data it returns
the default result and leaves the state untouched (`_last_result` is only
written on the full path); otherwise it scores data quality, adds cycling
detection, discovers the stable threshold and the regions (mutating the
scaler through `fit_transform`), and stores the result in
`_last_result`. -/
noncomputable def analyze (km : ℕ → List (List ℝ) → List ℕ)
    (st : AnalyzerState) (powerData : List PRow)
    (ot : Option (List (ℤ × ℚ))) : AnalyzerState × AnalysisResultM :=
  if checkDataSufficiency powerData then
    let df := addCyclingDetection powerData
    let sr := discoverRegions km df ot st.scaler
    let result : AnalysisResultM :=
      { minStablePower := some (discoverStableThreshold (hrowsOf df))
        regions := sr.2
        dataQualityScore := calculateDataQuality powerData
        sufficientData := true }
    ({ scaler := sr.1, lastResult := some result }, result)
  else
    (st, { minStablePower := none, regions := [], dataQualityScore := 0,
           sufficientData := false })

/-- C8: region discovery is deterministic.  With the seeded clustering
(`KMeans(random_state=42, n_init=10)`) modelled as a fixed function `km`
of the scaled feature matrix, a second `analyze` run on the same power
series — started from the state the first run left behind — produces the
same regions (hence the same power ranges and stability scores) and the
same `min_stable_power`; in fact the returned result does not depend on
the analyzer's incoming mutable state at all, because `fit_transform`
refits the scaler before use and `_last_result` is only written. -/
theorem c8_region_discovery_deterministic
    (km : ℕ → List (List ℝ) → List ℕ) (st : AnalyzerState)
    (powerData : List PRow) (ot : Option (List (ℤ × ℚ))) :
    (analyze km (analyze km st powerData ot).1 powerData ot).2.regions =
      (analyze km st powerData ot).2.regions ∧
    (analyze km (analyze km st powerData ot).1 powerData
        ot).2.minStablePower =
      (analyze km st powerData ot).2.minStablePower ∧
    ∀ st2 : AnalyzerState,
      (analyze km st2 powerData ot).2 = (analyze km st powerData ot).2 := by
  have keyR : ∀ p1 p2 : ScalerParams,
      (discoverRegions km (addCyclingDetection powerData) ot p1).2 =
        (discoverRegions km (addCyclingDetection powerData) ot p2).2 := by
    intro p1 p2
    unfold discoverRegions
    by_cases h : (featRows (addCyclingDetection powerData) ot).length < 100
    · simp only [if_pos h]
    · simp only [if_neg h]
  have key : ∀ s1 s2 : AnalyzerState,
      (analyze km s1 powerData ot).2 = (analyze km s2 powerData ot).2 := by
    intro s1 s2
    unfold analyze
    by_cases h : checkDataSufficiency powerData = true
    · simp only [if_pos h, keyR s1.scaler s2.scaler]
    · simp only [if_neg h]
  exact ⟨by rw [key (analyze km st powerData ot).1 st],
    by rw [key (analyze km st powerData ot).1 st], fun st2 => key st2 st⟩

end Climatiq
